import Mathlib

/-!
Verification development for the MultiversX tax-reporting proxy
(src/server.js, first revision, lines 1-753).  The JavaScript source is
shallowly embedded: raw smallest-unit amounts become Nat (they are
non-negative BigInt values in the source), decimal display strings are
modelled by an executable formatter, and the BigNumber librarys
decimal-string comparison is modelled by an executable parser into Rat.
-/

namespace MxProxy

/-! ## Digit and decimal-string utilities

Model of the decimal rendering performed by JS BigInt.toString and
BigNumber.toFixed, and of the decimal parsing performed by the BigNumber
constructor.  Only plain decimal notation is modelled (sign, digits,
optional fraction dot); the engine never produces scientific notation. -/

/-- One decimal digit rendered as a character. -/
def digitChar (k : Nat) : Char :=
  match k with
  | 0 => '0' | 1 => '1' | 2 => '2' | 3 => '3' | 4 => '4'
  | 5 => '5' | 6 => '6' | 7 => '7' | 8 => '8' | _ => '9'

/-- Decimal digits of a natural number, least significant first, with
explicit fuel so the kernel can evaluate it. -/
def natDigitsRevAux : Nat → Nat → List Char
  | 0, _ => []
  | fuel + 1, n =>
    if n < 10 then [digitChar n]
    else digitChar (n % 10) :: natDigitsRevAux fuel (n / 10)

/-- Decimal digits of a natural number, least significant first. -/
def natDigitsRev (n : Nat) : List Char := natDigitsRevAux (n + 1) n

/-- Decimal rendering of a natural number (model of JS BigInt.toString). -/
def natToDecStr (n : Nat) : String := ⟨(natDigitsRev n).reverse⟩

/-- Numeric value of a decimal digit character, none for other characters. -/
def digitVal? (c : Char) : Option Nat :=
  if 48 ≤ c.toNat && c.toNat ≤ 57 then some (c.toNat - 48) else none

/-- Horner-style accumulation of decimal digits, most significant first. -/
def digitsValAux : List Char → Nat → Option Nat
  | [], acc => some acc
  | c :: t, acc =>
    match digitVal? c with
    | some d => digitsValAux t (acc * 10 + d)
    | none => none

/-- Value of a string of decimal digits; some 0 for the empty list. -/
def digitsVal? (l : List Char) : Option Nat := digitsValAux l 0

/-- Split a character list at its first dot; none when a second dot
follows (which makes the number NaN for BigNumber). -/
def splitDotAux : List Char → List Char → Option (List Char × List Char)
  | [], acc => some (acc.reverse, [])
  | c :: t, acc =>
    if c = '.' then (if t.contains '.' then none else some (acc.reverse, t))
    else splitDotAux t (c :: acc)

/-- Model of BigNumber decimal-string parsing restricted to plain decimal
notation: optional leading minus, integer digits, optional dot and
fraction digits.  The value is kept exactly, as a scaled decimal
m over ten to the k, encoded (m, k).  Returns none where BigNumber would
produce NaN. -/
def parseDec (s : String) : Option (Int × Nat) :=
  let p : Bool × List Char :=
    match s.data with
    | c :: t => if c = '-' then (true, t) else (false, s.data)
    | [] => (false, [])
  match splitDotAux p.2 [] with
  | none => none
  | some (ip, fp) =>
    if ip.isEmpty && fp.isEmpty then none
    else
      match digitsVal? ip, digitsVal? fp with
      | some i, some f =>
        some ((if p.1 then (-1 : Int) else 1) * ((i : Int) * 10 ^ fp.length + (f : Int)),
          fp.length)
      | _, _ => none

/-- Model of BigNumber(a).gt(b): exact decimal comparison by cross
multiplication of the scaled representations, false whenever either
operand is NaN. -/
def gtDec (a b : String) : Bool :=
  match parseDec a, parseDec b with
  | some x, some y => decide (y.1 * 10 ^ x.2 < x.1 * 10 ^ y.2)
  | _, _ => false

/-- Exact decimal value equality of two strings, false whenever either is
NaN. -/
def eqDec (a b : String) : Bool :=
  match parseDec a, parseDec b with
  | some x, some y => decide (x.1 * 10 ^ y.2 = y.1 * 10 ^ x.2)
  | _, _ => false

/-- Left-pad a digit list with zeros to the given length. -/
def padLeftZeros (l : List Char) (n : Nat) : List Char :=
  List.replicate (n - l.length) '0' ++ l

/-- Drop trailing zero characters. -/
def trimRightZeros (l : List Char) : List Char :=
  (l.reverse.dropWhile (fun c => c = '0')).reverse

/-- Model of new BigNumber(n).dividedBy(new BigNumber(10).pow(d)).toFixed()
from the source: BigNumber division is carried to its default 20 decimal
places with half-up rounding, then rendered in plain notation without
trailing fraction zeros. -/
def formatAmount (n d : Nat) : String :=
  let scaled := (2 * n * 10 ^ 20 + 10 ^ d) / (2 * 10 ^ d)
  let ip := scaled / 10 ^ 20
  let fr := scaled % 10 ^ 20
  if fr = 0 then natToDecStr ip
  else ⟨(natToDecStr ip).data ++ '.' :: trimRightZeros (padLeftZeros (natDigitsRev fr).reverse 20)⟩

/-! ## Binary decoders (src/server.js lines 104-115)

The hex and base64 helpers are total and return empty/zero sentinels on
malformed input, as the try/catch wrappers in the source do.  Byte-to-text
conversion is modelled per byte (the engine only decodes ASCII token
identifiers and selectors). -/

/-- Value of one hexadecimal digit character. -/
def hexVal? (c : Char) : Option Nat :=
  if 48 ≤ c.toNat && c.toNat ≤ 57 then some (c.toNat - 48)
  else if 97 ≤ c.toNat && c.toNat ≤ 102 then some (c.toNat - 87)
  else if 65 ≤ c.toNat && c.toNat ≤ 70 then some (c.toNat - 55)
  else none

/-- Model of decodeHexToBigInt: BigInt of 0x-prefixed hex, 0 on failure
(empty or non-hex input throws in JS and is caught). -/
def decodeHexToBigInt (s : String) : Nat :=
  match s.data.mapM hexVal? with
  | some ds => if ds.isEmpty then 0 else ds.foldl (fun a d => a * 16 + d) 0
  | none => 0

/-- Leading well-formed hex pairs of a character list, as byte values. -/
def hexPairBytes : List Char → List Nat
  | a :: b :: t =>
    match hexVal? a, hexVal? b with
    | some x, some y => (x * 16 + y) :: hexPairBytes t
    | _, _ => []
  | _ => []

/-- Model of decodeHexToString: decode leading hex pairs to characters. -/
def decodeHexToString (s : String) : String :=
  ⟨(hexPairBytes s.data).map Char.ofNat⟩

/-- Value of one base64 alphabet character. -/
def b64Val? (c : Char) : Option Nat :=
  if 65 ≤ c.toNat && c.toNat ≤ 90 then some (c.toNat - 65)
  else if 97 ≤ c.toNat && c.toNat ≤ 122 then some (c.toNat - 71)
  else if 48 ≤ c.toNat && c.toNat ≤ 57 then some (c.toNat + 4)
  else if c = '+' then some 62
  else if c = '/' then some 63
  else none

/-- Collect full bytes out of a stream of 6-bit groups. -/
def sextetsToBytes : List Nat → Nat → Nat → List Nat
  | [], _, _ => []
  | v :: t, acc, nbits =>
    let acc2 := acc * 64 + v
    let nb := nbits + 6
    if 8 ≤ nb then (acc2 / 2 ^ (nb - 8)) % 256 :: sextetsToBytes t (acc2 % 2 ^ (nb - 8)) (nb - 8)
    else sextetsToBytes t acc2 nb

/-- Bytes of a base64 string, ignoring padding and invalid characters. -/
def b64Bytes (s : String) : List Nat :=
  sextetsToBytes (s.data.filterMap b64Val?) 0 0

/-- Model of decodeBase64ToString (ASCII payloads). -/
def decodeBase64ToString (s : String) : String :=
  ⟨(b64Bytes s).map Char.ofNat⟩

/-- One lowercase hexadecimal digit character. -/
def hexDigitChar (k : Nat) : Char :=
  match k with
  | 0 => '0' | 1 => '1' | 2 => '2' | 3 => '3' | 4 => '4'
  | 5 => '5' | 6 => '6' | 7 => '7' | 8 => '8' | 9 => '9'
  | 10 => 'a' | 11 => 'b' | 12 => 'c' | 13 => 'd' | 14 => 'e' | _ => 'f'

/-- Model of decodeBase64ToHex. -/
def decodeBase64ToHex (s : String) : String :=
  ⟨(b64Bytes s).foldr (fun b acc => hexDigitChar (b / 16) :: hexDigitChar (b % 16) :: acc) []⟩

/-! ## TaxRow and the deduplicator (src/server.js lines 117-163) -/

/-- One output row of the reconciliation engine. -/
structure TaxRow where
  timestamp : Nat
  function : String
  inAmount : String
  inCurrency : String
  outAmount : String
  outCurrency : String
  fee : String
  txHash : String
deriving DecidableEq, Repr

/-- Deduplication key, the template literal of line 122. -/
def mkKey (r : TaxRow) : String :=
  r.txHash ++ ":" ++ r.function ++ ":" ++ r.inCurrency ++ ":" ++ r.outCurrency

/-- Map entry of the deduplicator: the spread copy of the first row for a
key plus the two audit lists, keyed by the key string computed at
insertion time (the source stores entries in a Map under that string). -/
structure DedupEntry where
  key : String
  timestamp : Nat
  function : String
  inAmount : String
  inCurrency : String
  outAmount : String
  outCurrency : String
  fee : String
  txHash : String
  inAmounts : List (String × String)
  outAmounts : List (String × String)
deriving DecidableEq, Repr

/-- Fresh entry for the first row seen with a key (lines 124-129). -/
def newEntry (tx : TaxRow) : DedupEntry :=
  { key := mkKey tx
    timestamp := tx.timestamp
    function := tx.function
    inAmount := tx.inAmount
    inCurrency := tx.inCurrency
    outAmount := tx.outAmount
    outCurrency := tx.outCurrency
    fee := tx.fee
    txHash := tx.txHash
    inAmounts := []
    outAmounts := [] }

/-- Merge of a later row with the same key into the stored entry
(lines 131-149). -/
def mergeEntry (e : DedupEntry) (tx : TaxRow) : DedupEntry :=
  let e1 :=
    if tx.inAmount ≠ "0" ∧
        ¬ e.inAmounts.any (fun a => a.1 = tx.inAmount ∧ a.2 = tx.inCurrency) then
      let e0 :=
        if e.inAmount = "0" ∨ gtDec tx.inAmount e.inAmount then
          { e with inAmount := tx.inAmount, inCurrency := tx.inCurrency }
        else e
      { e0 with inAmounts := e0.inAmounts ++ [(tx.inAmount, tx.inCurrency)] }
    else e
  let e2 :=
    if tx.outAmount ≠ "0" ∧
        ¬ e1.outAmounts.any (fun a => a.1 = tx.outAmount ∧ a.2 = tx.outCurrency) then
      let e0 :=
        if e1.outAmount = "0" ∨ gtDec tx.outAmount e1.outAmount then
          { e1 with outAmount := tx.outAmount, outCurrency := tx.outCurrency }
        else e1
      { e0 with outAmounts := e0.outAmounts ++ [(tx.outAmount, tx.outCurrency)] }
    else e1
  if tx.fee ≠ "0" ∧ e2.fee = "0" then { e2 with fee := tx.fee } else e2

/-- One step of the deduplication loop: look the key up among the stored
entries, merge on a hit, append a fresh entry on a miss. -/
def dedupeStep (acc : List DedupEntry) (tx : TaxRow) : List DedupEntry :=
  if acc.any (fun e => e.key = mkKey tx) then
    acc.map (fun e => if e.key = mkKey tx then mergeEntry e tx else e)
  else acc ++ [newEntry tx]

/-- Final projection of an entry back to a TaxRow (lines 153-162). -/
def projectEntry (e : DedupEntry) : TaxRow :=
  { timestamp := e.timestamp
    function := e.function
    inAmount := e.inAmount
    inCurrency := e.inCurrency
    outAmount := e.outAmount
    outCurrency := e.outCurrency
    fee := e.fee
    txHash := e.txHash }

/-- deduplicateTransactions (lines 117-163). -/
def deduplicateTransactions (l : List TaxRow) : List TaxRow :=
  (l.foldl dedupeStep []).map projectEntry

/-! ## Upstream data model (src/server.js lines 253-317)

Raw smallest-unit values are modelled as Nat: the source turns the
upstream decimal strings into non-negative BigInt values before use. -/

/-- One transaction from the upstream list endpoint. -/
structure Tx where
  txHash : String
  timestamp : Nat
  sender : String
  receiver : String
  function : String
  value : Nat
  fee : Nat
  data : Option String
  actionCategory : Option String
deriving DecidableEq, Repr

/-- One typed operation record from the detail endpoint. -/
structure Op where
  typ : String
  sender : String
  receiver : String
  value : Nat
  identifier : Option String
  name : Option String
deriving DecidableEq, Repr

/-- One execution-log event, with its base64 topics. -/
structure Event where
  identifier : String
  topics : List String
deriving DecidableEq, Repr

/-- One smart-contract result, with its base64 call-descriptor payload. -/
structure SCRes where
  sender : String
  receiver : String
  data : Option String
  funcName : Option String
deriving DecidableEq, Repr

/-- The lazily fetched per-transaction detail. -/
structure Detail where
  operations : List Op
  events : List Event
  results : List SCRes
deriving DecidableEq, Repr

/-! ## Configuration constants (src/server.js lines 14-33, 355-360) -/

/-- CONFIG.TAX_RELEVANT_FUNCTIONS, verbatim; note the mixed-case
aggregateEgld entry, which can never match the lowercased function name. -/
def TAX_RELEVANT_FUNCTIONS : List String :=
  ["claimrewards", "claimrewardsproxy", "swap_tokens_fixed_input",
   "swap_tokens_fixed_output", "multipairswap", "transfer", "esdttransfer",
   "multiesdtnfttransfer", "swap", "send", "receive", "wrapegld",
   "unwrapegld", "aggregateEgld"]

/-- CONFIG.KNOWN_TOKEN_DECIMALS. -/
def KNOWN_TOKEN_DECIMALS : List (String × Nat) :=
  [("EGLD", 18), ("WEGLD-bd4d79", 18), ("MEX-455c57", 18), ("XMEX-fda355", 18)]

/-- Curated reward-token allow-list of the claimrewards branch. -/
def rewardTokens : List String :=
  ["XMEX-fda355", "MEX-455c57", "UTK-2f80e9", "ZPAY-247875", "QWT-46ac01",
   "RIDE-7d18e9", "CRT-a28d59", "CYBER-5d1f4a", "AERO-458b36", "ISET-83f339",
   "BHAT-c1fde3", "SFIT-dcbf2a"]

/-- ASCII uppercasing of one character, for the case-insensitive regex. -/
def charUpper (c : Char) : Char :=
  if 97 ≤ c.toNat && c.toNat ≤ 122 then Char.ofNat (c.toNat - 32) else c

/-- Does p occur as a contiguous run inside l. -/
def hasInfix : List Char → List Char → Bool
  | [], p => p.isPrefixOf ([] : List Char)
  | l@(_ :: t), p => p.isPrefixOf l || hasInfix t p

/-- Does p occur and, somewhere after it, q (model of the regex p.*q). -/
def hasSeq : List Char → List Char → List Char → Bool
  | [], p, q => p.isPrefixOf ([] : List Char) && hasInfix [] q
  | l@(_ :: t), p, q =>
    (p.isPrefixOf l && hasInfix (l.drop p.length) q) || hasSeq t p q

/-- Model of lpTokenPattern.test: the case-insensitive alternation
FARM, FL-, EGLD.*FL, WEGLD.*FL, XMEXFARM, CYBEEGLD, CRTWEGLD. -/
def lpTokenTest (s : String) : Bool :=
  let u := s.data.map charUpper
  hasInfix u "FARM".data || hasInfix u "FL-".data ||
  hasSeq u "EGLD".data "FL".data || hasSeq u "WEGLD".data "FL".data ||
  hasInfix u "XMEXFARM".data || hasInfix u "CYBEEGLD".data ||
  hasInfix u "CRTWEGLD".data

/-! ## Reconciliation engine (src/server.js lines 253-728)

One iteration of the main per-transaction loop, as a pure function of the
transaction, its fetched detail, the wallet address, and the resolved
token decimals (getTokenDecimals results, which do not affect row
structure).  Progress reporting and console logging are omitted. -/

/-- Model of the JS a-or-b idiom on possibly missing strings: the empty
string is falsy. -/
def jsOr (o : Option String) (d : String) : String :=
  match o with
  | some s => if s = "" then d else s
  | none => d

/-- Model of (tx.function or empty).toLowerCase(): per-character ASCII
lowercasing. -/
def jsToLower (s : String) : String := ⟨s.data.map Char.toLower⟩

/-- Token name of an operation: identifier, else name, else UNKNOWN. -/
def tokenOfOp (op : Op) : String := jsOr op.identifier (jsOr op.name "UNKNOWN")

/-- Topic i of an event with a default, modelling topics index-or-default. -/
def topicOr (ev : Event) (i : Nat) (d : String) : String :=
  match ev.topics.get? i with
  | some s => if s = "" then d else s
  | none => d

/-- Transaction-level fee in whole EGLD: truncating BigInt division of the
smallest-unit fee by 10 to the 18, rendered in decimal (lines 277 etc). -/
def feeStr (tx : Tx) : String := natToDecStr (tx.fee / 10 ^ 18)

/-- Operation type tags treated as token movements (lines 308-317). -/
def esdtOpTypes : List String :=
  ["esdt", "MetaESDT", "fungibleESDT", "nft", "nonFungibleESDT"]

/-- Inbound native-currency operations (lines 303-307). -/
def egldTransfersIn (wallet : String) (ops : List Op) : List Op :=
  ops.filter (fun op => op.typ == "egld" && op.receiver == wallet && decide (0 < op.value))

/-- Inbound token operations (lines 308-312). -/
def tokenTransfersIn (wallet : String) (ops : List Op) : List Op :=
  ops.filter (fun op => esdtOpTypes.contains op.typ && op.receiver == wallet && decide (0 < op.value))

/-- Outbound token operations (lines 313-317). -/
def tokenTransfersOut (wallet : String) (ops : List Op) : List Op :=
  ops.filter (fun op => esdtOpTypes.contains op.typ && op.sender == wallet && decide (0 < op.value))

/-- ESDT-bearing smart-contract results addressed to the wallet; the same
filter appears at lines 453-457 and 671-675. -/
def esdtResultFilter (wallet : String) (results : List SCRes) : List SCRes :=
  results.filter (fun r =>
    r.receiver == wallet &&
    (match r.data with | some s => s != "" | none => false) &&
    ((r.data.getD "").startsWith "RVNEVFRyYW5zZmVy" ||
     r.funcName == some "ESDTTransfer" || r.funcName == some "MultiESDTNFTTransfer"))

/-- Transfer events addressed to the wallet, claimrewards variant
(lines 416-419). -/
def claimEventFilter (wallet : String) (events : List Event) : List Event :=
  events.filter (fun ev =>
    (ev.identifier == "ESDTTransfer" || ev.identifier == "ESDTNFTTransfer") &&
    decodeBase64ToString (topicOr ev 3 "") == wallet)

/-- Transfer events addressed to the wallet, generic variant
(lines 640-643). -/
def genericEventFilter (wallet : String) (events : List Event) : List Event :=
  events.filter (fun ev =>
    (ev.identifier == "ESDTTransfer" || ev.identifier == "ESDTNFTTransfer" ||
     ev.identifier == "transfer" || ev.identifier == "ESDTLocalTransfer") &&
    decodeBase64ToString (topicOr ev 3 "") == wallet)

/-- Token of an event: decoded topic 0, UNKNOWN when empty. -/
def evToken (ev : Event) : String :=
  let t := decodeBase64ToString (topicOr ev 0 "")
  if t = "" then "UNKNOWN" else t

/-- Amount of an event: decoded topic 2 (default the string 0). -/
def evAmount (ev : Event) : Nat :=
  decodeHexToBigInt (decodeBase64ToHex (topicOr ev 2 "0"))

/-- The at-delimited parts of a decoded result payload. -/
def resParts (r : SCRes) : List String :=
  (decodeBase64ToString (r.data.getD "")).splitOn "@"

/-- Part i of a descriptor, empty when absent. -/
def partAt (parts : List String) (i : Nat) : String := (parts.get? i).getD ""

/-- Function name fallback for rows: func or transfer (line 325 etc). -/
def funcOr (func : String) : String := if func = "" then "transfer" else func

/-- Usability test of a claimrewards-branch smart-contract result
(lines 459-477): descriptor long enough, token nonempty and not
liquidity-pool-patterned, positive amount. -/
def claimResultUsable (r : SCRes) : Bool :=
  let parts := resParts r
  decide (3 ≤ parts.length) &&
  (let token := decodeHexToString (partAt parts 1)
   token != "" && !lpTokenTest token &&
   decide (0 < decodeHexToBigInt (partAt parts 2)))

/-- The claimrewards and claimrewardsproxy branch (lines 353-509): the
reward-token allow-list over inbound operations, then the first non-LP
operation, then log events, then smart-contract results, then an empty
placeholder row with currency UNKNOWN.  Each stage stops at its first hit
(push then break then continue in the source). -/
def claimRewardsRows (wallet : String) (decimalsOf : String → Nat) (tx : Tx)
    (func : String) (tokIn : List Op) (events : List Event)
    (results : List SCRes) (hasAddedEGLD : Bool) : List TaxRow :=
  match tokIn.find? (fun op => rewardTokens.contains (tokenOfOp op)) with
  | some op =>
    [{ timestamp := tx.timestamp, function := func,
       inAmount := formatAmount op.value (decimalsOf (tokenOfOp op)),
       inCurrency := tokenOfOp op, outAmount := "0", outCurrency := "EGLD",
       fee := feeStr tx, txHash := tx.txHash }]
  | none =>
  match tokIn.find? (fun op => tokenOfOp op != "UNKNOWN" && !lpTokenTest (tokenOfOp op)) with
  | some op =>
    [{ timestamp := tx.timestamp, function := func,
       inAmount := formatAmount op.value (decimalsOf (tokenOfOp op)),
       inCurrency := tokenOfOp op, outAmount := "0", outCurrency := "EGLD",
       fee := feeStr tx, txHash := tx.txHash }]
  | none =>
  match (claimEventFilter wallet events).find? (fun ev =>
      evToken ev != "UNKNOWN" && !lpTokenTest (evToken ev) && decide (0 < evAmount ev)) with
  | some ev =>
    [{ timestamp := tx.timestamp, function := func,
       inAmount := formatAmount (evAmount ev) (decimalsOf (evToken ev)),
       inCurrency := evToken ev, outAmount := "0", outCurrency := "EGLD",
       fee := feeStr tx, txHash := tx.txHash }]
  | none =>
  match (esdtResultFilter wallet results).enum.find? (fun p => claimResultUsable p.2) with
  | some p =>
    let parts := resParts p.2
    [{ timestamp := tx.timestamp, function := func,
       inAmount := formatAmount (decodeHexToBigInt (partAt parts 2))
         (decimalsOf (decodeHexToString (partAt parts 1))),
       inCurrency := decodeHexToString (partAt parts 1),
       outAmount := "0", outCurrency := "EGLD",
       fee := if p.1 == 0 && !hasAddedEGLD then feeStr tx else "0",
       txHash := tx.txHash }]
  | none =>
    [{ timestamp := tx.timestamp, function := func, inAmount := "0",
       inCurrency := "UNKNOWN", outAmount := "0", outCurrency := "EGLD",
       fee := feeStr tx, txHash := tx.txHash }]

/-- Generic inbound-token rows (lines 588-612); the fee goes only to the
row of the position-0 operation when no EGLD row claimed it. -/
def genericTokenInRows (decimalsOf : String → Nat) (tx : Tx) (func : String)
    (tokIn : List Op) (hasAddedEGLD : Bool) : List TaxRow :=
  tokIn.enum.filterMap (fun p =>
    let token := tokenOfOp p.2
    if token == "UNKNOWN" then none
    else if p.2.value == 0 then none
    else some
      { timestamp := tx.timestamp, function := funcOr func,
        inAmount := formatAmount p.2.value (decimalsOf token), inCurrency := token,
        outAmount := "0", outCurrency := "EGLD",
        fee := if p.1 == 0 && !hasAddedEGLD then feeStr tx else "0",
        txHash := tx.txHash })

/-- Generic outbound-token rows (lines 614-638). -/
def genericTokenOutRows (decimalsOf : String → Nat) (tx : Tx) (func : String)
    (tokOut : List Op) (hasAddedEGLD : Bool) : List TaxRow :=
  tokOut.enum.filterMap (fun p =>
    let token := tokenOfOp p.2
    if token == "UNKNOWN" then none
    else if p.2.value == 0 then none
    else some
      { timestamp := tx.timestamp, function := funcOr func,
        inAmount := "0", inCurrency := "EGLD",
        outAmount := formatAmount p.2.value (decimalsOf token), outCurrency := token,
        fee := if p.1 == 0 && !hasAddedEGLD then feeStr tx else "0",
        txHash := tx.txHash })

/-- Generic log-event rows (lines 645-669). -/
def genericEventRows (decimalsOf : String → Nat) (tx : Tx) (func : String)
    (eventsFiltered : List Event) (hasAddedEGLD : Bool) : List TaxRow :=
  eventsFiltered.enum.filterMap (fun p =>
    let token := evToken p.2
    if token == "UNKNOWN" then none
    else if evAmount p.2 == 0 then none
    else some
      { timestamp := tx.timestamp, function := funcOr func,
        inAmount := formatAmount (evAmount p.2) (decimalsOf token), inCurrency := token,
        outAmount := "0", outCurrency := "EGLD",
        fee := if p.1 == 0 && !hasAddedEGLD then feeStr tx else "0",
        txHash := tx.txHash })

/-- Generic smart-contract-result rows (lines 677-709); unlike the
claimrewards stage, the liquidity-pool pattern is not consulted here. -/
def genericResultRows (decimalsOf : String → Nat) (tx : Tx) (func : String)
    (resultsFiltered : List SCRes) (hasAddedEGLD : Bool) : List TaxRow :=
  resultsFiltered.enum.filterMap (fun p =>
    let parts := resParts p.2
    if parts.length < 3 then none
    else
      let token := decodeHexToString (partAt parts 1)
      if token == "" then none
      else
        let amount := decodeHexToBigInt (partAt parts 2)
        if amount == 0 then none
        else some
          { timestamp := tx.timestamp, function := funcOr func,
            inAmount := formatAmount amount (decimalsOf token), inCurrency := token,
            outAmount := "0", outCurrency := "EGLD",
            fee := if p.1 == 0 && !hasAddedEGLD then feeStr tx else "0",
            txHash := tx.txHash })

/-- The shared tail of the default path (lines 588-725): the four generic
source loops followed by the zero-valued fallback row for transactions
with no discovered movement.  The inner mixed-case aggregateEgld guard of
line 713 is kept verbatim. -/
def genericRows (wallet : String) (decimalsOf : String → Nat) (tx : Tx)
    (func : String) (egldIn tokIn tokOut : List Op) (events : List Event)
    (results : List SCRes) (hasAddedEGLD : Bool) : List TaxRow :=
  let evFiltered := genericEventFilter wallet events
  let resFiltered := esdtResultFilter wallet results
  genericTokenInRows decimalsOf tx func tokIn hasAddedEGLD ++
  genericTokenOutRows decimalsOf tx func tokOut hasAddedEGLD ++
  genericEventRows decimalsOf tx func evFiltered hasAddedEGLD ++
  genericResultRows decimalsOf tx func resFiltered hasAddedEGLD ++
  (if !hasAddedEGLD && egldIn.isEmpty && tokIn.isEmpty && tokOut.isEmpty &&
      evFiltered.isEmpty && resFiltered.isEmpty then
    (if func != "aggregateEgld" then
      [{ timestamp := tx.timestamp,
         function := if func = "" then "unknown" else func,
         inAmount := "0", inCurrency := "EGLD", outAmount := "0",
         outCurrency := "EGLD", fee := feeStr tx, txHash := tx.txHash }]
     else [])
   else [])

/-- The top-level inbound EGLD row of lines 266-281; its presence is what
the hasAddedEGLD flag initially records. -/
def topLevelRows (wallet : String) (tx : Tx) (func : String) : List TaxRow :=
  if tx.receiver == wallet && decide (0 < tx.value) && func != "wrapegld" then
    [{ timestamp := tx.timestamp, function := "transfer",
       inAmount := formatAmount tx.value 18, inCurrency := "EGLD",
       outAmount := "0", outCurrency := "EGLD", fee := feeStr tx,
       txHash := tx.txHash }]
  else []

/-- Rows for inbound EGLD operations (lines 319-334). -/
def egldOpRows (tx : Tx) (func : String) (egldIn : List Op)
    (hasAdded0 : Bool) : List TaxRow :=
  egldIn.enum.map (fun p =>
    { timestamp := tx.timestamp, function := funcOr func,
      inAmount := formatAmount p.2.value 18, inCurrency := "EGLD",
      outAmount := "0", outCurrency := "EGLD",
      fee := if p.1 == 0 && !hasAdded0 then feeStr tx else "0",
      txHash := tx.txHash })

/-- The reduce of lines 545-547 and 557-559: the movement with the
strictly highest value, ties keeping the earlier element, none on an
empty list (the source guards with a length check). -/
def swapSelect (ops : List Op) : Option Op :=
  match ops with
  | [] => none
  | h :: _ => some (ops.foldl (fun mx op => if decide (mx.value < op.value) then op else mx) h)

/-- One iteration of the main loop of POST fetch-transactions
(lines 253-728): the top-level EGLD credit, the relevance check, the
inbound EGLD operation rows, then the special-cased branches
(aggregateEgld, claimrewards, wrapegld, swaps) and the generic tail.
Branches that end in continue in the source return their rows directly.
The swap branch falls through to the generic tail when both legs resolve
to UNKNOWN. -/
def processTransaction (wallet : String) (decimalsOf : String → Nat)
    (tx : Tx) (detail : Detail) : List TaxRow :=
  let func := jsToLower tx.function
  let hasAdded0 : Bool := tx.receiver == wallet && decide (0 < tx.value) && func != "wrapegld"
  let topRows := topLevelRows wallet tx func
  let isTaxRelevant : Bool :=
    TAX_RELEVANT_FUNCTIONS.contains func || func == "" ||
    tx.actionCategory == some "mex" ||
    (match tx.data with | some s => s.startsWith "RVNEVFRyYW5zZmVy" | none => false)
  if !isTaxRelevant && !hasAdded0 then topRows
  else
    let egldIn := egldTransfersIn wallet detail.operations
    let tokIn := tokenTransfersIn wallet detail.operations
    let tokOut := tokenTransfersOut wallet detail.operations
    let hasAdded1 : Bool := hasAdded0 || !egldIn.isEmpty
    let base := topRows ++ egldOpRows tx func egldIn hasAdded0
    if func == "aggregateEgld" && tx.sender == wallet && decide (0 < tx.value) then
      base ++
        [{ timestamp := tx.timestamp, function := func, inAmount := "0",
           inCurrency := "EGLD", outAmount := formatAmount tx.value 18,
           outCurrency := "EGLD", fee := feeStr tx, txHash := tx.txHash }]
    else if func == "claimrewards" || func == "claimrewardsproxy" then
      base ++ claimRewardsRows wallet decimalsOf tx func tokIn detail.events detail.results hasAdded1
    else if func == "wrapegld" && tx.sender == wallet && decide (0 < tx.value) then
      let inLeg : String × String :=
        match tokIn.find? (fun op => op.identifier == some "WEGLD-bd4d79") with
        | some op =>
          if decide (0 < op.value) then
            (formatAmount op.value (decimalsOf "WEGLD-bd4d79"), "WEGLD-bd4d79")
          else ("0", "EGLD")
        | none => ("0", "EGLD")
      base ++
        [{ timestamp := tx.timestamp, function := func, inAmount := inLeg.1,
           inCurrency := inLeg.2, outAmount := formatAmount tx.value 18,
           outCurrency := "EGLD", fee := feeStr tx, txHash := tx.txHash }]
    else if func == "swap_tokens_fixed_input" || func == "swap_tokens_fixed_output" ||
        func == "multipairswap" then
      let inSel := swapSelect tokIn
      let outSel := swapSelect tokOut
      let inCur := match inSel with | some op => jsOr op.identifier "UNKNOWN" | none => "UNKNOWN"
      let outCur := match outSel with | some op => jsOr op.identifier "UNKNOWN" | none => "UNKNOWN"
      let inAmt := match inSel with
        | some op => if jsOr op.identifier "UNKNOWN" != "UNKNOWN" then
            formatAmount op.value (decimalsOf (jsOr op.identifier "UNKNOWN")) else "0"
        | none => "0"
      let outAmt := match outSel with
        | some op => if jsOr op.identifier "UNKNOWN" != "UNKNOWN" then
            formatAmount op.value (decimalsOf (jsOr op.identifier "UNKNOWN")) else "0"
        | none => "0"
      if inCur != "UNKNOWN" || outCur != "UNKNOWN" then
        base ++
          [{ timestamp := tx.timestamp, function := func, inAmount := inAmt,
             inCurrency := inCur, outAmount := outAmt, outCurrency := outCur,
             fee := feeStr tx, txHash := tx.txHash }]
      else
        base ++ genericRows wallet decimalsOf tx func egldIn tokIn tokOut
          detail.events detail.results hasAdded1
    else
      base ++ genericRows wallet decimalsOf tx func egldIn tokIn tokOut
        detail.events detail.results hasAdded1

/-! ## Token decimals resolver (src/server.js lines 183-197)

The network call is modelled by an explicit response argument; the
returned Bool records whether a network request was issued on this call.
The process-wide NodeCache is modelled as an association list. -/

/-- Outcome of the upstream metadata request: a thrown failure (timeout,
4xx, 5xx), or a body whose decimals field may be absent. -/
inductive NetResp where
  | fail : NetResp
  | ok : Option Nat → NetResp
deriving DecidableEq, Repr

/-- Cache lookup, modelling tokenDecimalsCache.has and .get. -/
def lookupCache (st : List (String × Nat)) (token : String) : Option Nat :=
  (st.find? (fun p => p.1 == token)).map (fun p => p.2)

/-- getTokenDecimals (lines 183-197): EGLD and falsy tokens short-circuit
to 18; the static table short-circuits next (all its values are truthy);
then the cache; otherwise one network request whose successful decimals
value (with the falsy-to-18 fallback of line 190) is cached, while a
thrown failure returns 18 without touching the cache. -/
def getTokenDecimals (token : String) (st : List (String × Nat))
    (resp : NetResp) : Nat × List (String × Nat) × Bool :=
  if token == "" || token == "EGLD" then (18, st, false)
  else
    match (KNOWN_TOKEN_DECIMALS.find? (fun p => p.1 == token)).map (fun p => p.2) with
    | some d => (d, st, false)
    | none =>
      match lookupCache st token with
      | some d => (d, st, false)
      | none =>
        match resp with
        | .ok dec? =>
          let d := match dec? with | some k => if k == 0 then 18 else k | none => 18
          (d, (token, d) :: st, true)
        | .fail => (18, st, true)

/-! ## Request validation (src/server.js lines 199-235)

The validation phase of POST fetch-transactions, up to the point where
upstream calls begin: every upstream request (the account probe of line
235, the paginated transaction list, the per-transaction details) is
issued only after a proceed outcome.  Date parsing by new Date is
modelled by an oracle returning the epoch milliseconds, none standing for
an Invalid Date (NaN), whose comparisons are all false. -/

/-- A request body field: absent, or present with a string value; the
empty string is falsy for the presence check. -/
structure FetchRequest where
  walletAddress : Option String
  fromDate : Option String
  toDate : Option String
  clientId : Option String
deriving DecidableEq, Repr

/-- JS truthiness of an optional string field. -/
def truthyStr (o : Option String) : Bool :=
  match o with
  | some s => s != ""
  | none => false

/-- validateWalletAddress (line 103): the regex erd1 followed by exactly
58 lowercase base-32-alphabet characters. -/
def validateWalletAddress (s : String) : Bool :=
  match s.data with
  | 'e' :: 'r' :: 'd' :: '1' :: rest =>
    rest.length == 58 &&
    rest.all (fun c => (48 ≤ c.toNat && c.toNat ≤ 57) || (97 ≤ c.toNat && c.toNat ≤ 122))
  | _ => false

/-- Outcome of the validation phase: an immediate 400 with its message,
or proceeding to the cache check and upstream calls with the computed
epoch-second bounds (none when a date was invalid). -/
inductive ValidationOutcome where
  | badRequest : String → ValidationOutcome
  | proceed : Option Int → Option Int → ValidationOutcome
deriving DecidableEq, Repr

/-- Model of fromDateObj greater-than toDateObj: comparisons against an
Invalid Date (NaN) are false. -/
def jsDateGt (a b : Option Int) : Bool :=
  match a, b with
  | some x, some y => decide (y < x)
  | _, _ => false

/-- The validation phase of POST fetch-transactions (lines 199-221):
presence of all four fields, the address pattern, then the date-range
comparison.  There is no not-a-number rejection of unparseable dates in
this revision. -/
def fetchTransactionsValidate (req : FetchRequest)
    (dateMs : String → Option Int) : ValidationOutcome :=
  if !truthyStr req.walletAddress || !truthyStr req.fromDate ||
      !truthyStr req.toDate || !truthyStr req.clientId then
    .badRequest "Missing required parameters"
  else if !validateWalletAddress (req.walletAddress.getD "") then
    .badRequest "Invalid wallet address"
  else
    let f := dateMs (req.fromDate.getD "")
    let t := dateMs (req.toDate.getD "")
    if jsDateGt f t then .badRequest "Invalid date range"
    else .proceed (f.map (fun ms => Int.fdiv ms 1000)) (t.map (fun ms => Int.fdiv ms 1000))

/-- Is the outcome an immediate 400. -/
def isBadRequest : ValidationOutcome → Bool
  | .badRequest _ => true
  | .proceed _ _ => false

/-! ## Proof-support definitions

Abstract descriptions of fold behaviour inside the deduplicator, used to
state and prove its properties; no source code corresponds to these. -/

/-- Does the string avoid the colon used by the deduplication key. -/
def noColon (s : String) : Bool := !s.data.contains ':'

/-- Are all four key fields of a row colon-free. -/
def colonFreeRow (r : TaxRow) : Bool :=
  noColon r.txHash && noColon r.function && noColon r.inCurrency && noColon r.outCurrency

/-- The deduplication key recomputed from the current fields of an entry. -/
def entryKey (e : DedupEntry) : String :=
  e.txHash ++ ":" ++ e.function ++ ":" ++ e.inCurrency ++ ":" ++ e.outCurrency

/-- The effect of one merge on the kept amount: keep the current value
against a literal zero, replace a literal zero, otherwise keep the
decimally larger side (ties keep the incumbent). -/
def pickLarger (cur a : String) : String :=
  if a = "0" then cur
  else if cur = "0" then a
  else if gtDec a cur then a else cur

/-- The effect of one merge on the fee: adopt a nonzero fee only over a
literal zero. -/
def feeStep (c f : String) : String := if f ≠ "0" ∧ c = "0" then f else c

/-- First string differing from the literal zero, else that zero. -/
def firstNonZero (l : List String) : String :=
  (l.find? (fun s => s != "0")).getD "0"

/-- Does the string parse as a plain decimal number. -/
def parsesDec (s : String) : Bool := (parseDec s).isSome

/-- Rational value of a scaled-decimal pair. -/
def qOfScaled (p : Int × Nat) : ℚ := (p.1 : ℚ) / 10 ^ p.2

/-- Rational value of a decimal string, none for NaN. -/
def parseDecQ (s : String) : Option ℚ := (parseDec s).map qOfScaled

/-- Parsed decimal order between two strings. -/
def valLe (a b : String) : Prop :=
  ∃ x y, parseDec a = some x ∧ parseDec b = some y ∧ qOfScaled x ≤ qOfScaled y

/-- Invariant of the inbound leg of a deduplication entry: the kept
amount parses, every audited amount parses, is nonzero and is at most the
kept amount, and a nonempty audit list forces a nonzero kept amount. -/
def InvInP (e : DedupEntry) : Prop :=
  parsesDec e.inAmount = true ∧
  (∀ p ∈ e.inAmounts, p.1 ≠ "0" ∧ parsesDec p.1 = true ∧ valLe p.1 e.inAmount) ∧
  (e.inAmounts ≠ [] → e.inAmount ≠ "0")

/-- Invariant of the outbound leg of a deduplication entry. -/
def InvOutP (e : DedupEntry) : Prop :=
  parsesDec e.outAmount = true ∧
  (∀ p ∈ e.outAmounts, p.1 ≠ "0" ∧ parsesDec p.1 = true ∧ valLe p.1 e.outAmount) ∧
  (e.outAmounts ≠ [] → e.outAmount ≠ "0")

/-- Invariant of an entry inside the deduplication fold: its stored key
matches its current fields, which are colon-free. -/
def GoodEntry (e : DedupEntry) : Prop :=
  entryKey e = e.key ∧ colonFreeRow (projectEntry e) = true

/-- Invariant of the accumulator: every entry is good and the stored keys
are pairwise distinct. -/
def GoodAcc (acc : List DedupEntry) : Prop :=
  (∀ e ∈ acc, GoodEntry e) ∧ (acc.map (fun e => e.key)).Nodup

/-- The five merge-relevant fields of a row: both legs and the fee. -/
def rowLegs (r : TaxRow) : String × String × String × String × String :=
  (r.inAmount, r.inCurrency, r.outAmount, r.outCurrency, r.fee)

/-! ## Concrete example inputs used by closed theorems -/

/-- A syntactically valid wallet address: erd1 and 58 times q. -/
def exWallet : String := "erd1" ++ String.mk (List.replicate 58 'q')

/-- A decimals oracle answering 18 for every token. -/
def exDecimals : String → Nat := fun _ => 18

/-- A decimals oracle answering 21 for every token. -/
def exDecimals21 : String → Nat := fun _ => 21

/-- A transfer whose detail holds one inbound and one outbound token
movement, with a fee of two whole EGLD. -/
def exTx1 : Tx :=
  { txHash := "h1", timestamp := 100, sender := "me", receiver := "other"
    function := "transfer", value := 0, fee := 2000000000000000000
    data := none, actionCategory := none }

/-- Detail of exTx1: one token in, one token out. -/
def exDetail1 : Detail :=
  { operations := [
      { typ := "esdt", sender := "other", receiver := exWallet, value := 5000000000000000000
        identifier := some "AAA-111111", name := none },
      { typ := "esdt", sender := exWallet, receiver := "other", value := 7000000000000000000
        identifier := some "BBB-222222", name := none }]
    events := [], results := [] }

/-- A claimrewards transaction with no movement in any data source. -/
def exTx3 : Tx :=
  { txHash := "h3", timestamp := 100, sender := "a", receiver := "b"
    function := "claimRewards", value := 0, fee := 500000000000000
    data := none, actionCategory := none }

/-- A plain transfer with no movement in any data source. -/
def exTx3b : Tx :=
  { txHash := "h3b", timestamp := 100, sender := "a", receiver := "b"
    function := "transfer", value := 0, fee := 500000000000000
    data := none, actionCategory := none }

/-- An empty transaction detail. -/
def exDetailEmpty : Detail := { operations := [], events := [], results := [] }

/-- A claimrewards transaction for the reward-selection scenario. -/
def exTx6 : Tx :=
  { txHash := "h6", timestamp := 100, sender := "a", receiver := "b"
    function := "claimrewards", value := 0, fee := 0
    data := none, actionCategory := none }

/-- Detail of exTx6: a liquidity-pool-pattern token before a listed
reward token. -/
def exDetail6 : Detail :=
  { operations := [
      { typ := "esdt", sender := "c", receiver := exWallet, value := 33
        identifier := some "XMEXFARM-abcdef", name := none },
      { typ := "esdt", sender := "c", receiver := exWallet, value := 44
        identifier := some "RIDE-7d18e9", name := none }]
    events := [], results := [] }

/-- A swap transaction for the primary-leg scenario. -/
def exTx7 : Tx :=
  { txHash := "h7", timestamp := 100, sender := "me", receiver := "pool"
    function := "swap_tokens_fixed_input", value := 0, fee := 0
    data := none, actionCategory := none }

/-- Detail of exTx7: inbound values 10 (dust) and 500 (primary), one
outbound value 777. -/
def exDetail7 : Detail :=
  { operations := [
      { typ := "esdt", sender := "pool", receiver := exWallet, value := 10
        identifier := some "DUST-000001", name := none },
      { typ := "esdt", sender := "pool", receiver := exWallet, value := 500
        identifier := some "MAIN-000001", name := none },
      { typ := "esdt", sender := exWallet, receiver := "pool", value := 777
        identifier := some "PAY-000001", name := none }]
    events := [], results := [] }

/-- A transfer with a single inbound movement of one smallest unit, for
the precision scenario. -/
def exTx9 : Tx :=
  { txHash := "h9", timestamp := 100, sender := "me", receiver := "other"
    function := "transfer", value := 0, fee := 123456
    data := none, actionCategory := none }

/-- Detail of exTx9: one inbound token operation of value 1. -/
def exDetail9 : Detail :=
  { operations := [
      { typ := "esdt", sender := "other", receiver := exWallet, value := 1
        identifier := some "WEIRD-123456", name := none }]
    events := [], results := [] }

/-- A date oracle knowing one valid date. -/
def exDateMs : String → Option Int :=
  fun s => if s = "2024-01-02" then some 1704153600000 else none

/-- A date oracle knowing two valid dates in reversed order. -/
def exDateMs2 : String → Option Int :=
  fun s =>
    if s = "2024-01-02" then some 1704153600000
    else if s = "2024-01-01" then some 1704067200000
    else none

/-- A request whose fromDate does not parse. -/
def exReq8 : FetchRequest :=
  { walletAddress := some exWallet, fromDate := some "notadate"
    toDate := some "2024-01-02", clientId := some "c1" }

/-- A request with fromDate after toDate. -/
def exReq8b : FetchRequest :=
  { walletAddress := some exWallet, fromDate := some "2024-01-02"
    toDate := some "2024-01-01", clientId := some "c1" }

/-- A request missing only clientId. -/
def exReq10 : FetchRequest :=
  { walletAddress := some exWallet, fromDate := some "2024-01-01"
    toDate := some "2024-01-02", clientId := none }

/-- First row of the colon counterexample: its outCurrency swallows part
of the key of the other rows. -/
def exRowP : TaxRow :=
  { timestamp := 0, function := "f", inAmount := "1", inCurrency := "A"
    outAmount := "0", outCurrency := "B:E", fee := "0", txHash := "h" }

/-- Second row of the colon counterexample: a different field split with
the same joined key as exRowP. -/
def exRowQ : TaxRow :=
  { timestamp := 0, function := "f:A", inAmount := "2", inCurrency := "B"
    outAmount := "0", outCurrency := "E", fee := "0", txHash := "h" }

/-- Third row of the colon counterexample: its own key collides with the
post-merge fields of the first entry. -/
def exRowR : TaxRow :=
  { timestamp := 0, function := "f", inAmount := "9", inCurrency := "B"
    outAmount := "0", outCurrency := "B:E", fee := "0", txHash := "h" }

/-- A row carrying fee 1, sharing its key with exRowB2. -/
def exRowB1 : TaxRow :=
  { timestamp := 0, function := "f", inAmount := "5", inCurrency := "T"
    outAmount := "0", outCurrency := "EGLD", fee := "1", txHash := "h" }

/-- A row carrying fee 2, sharing its key with exRowB1. -/
def exRowB2 : TaxRow :=
  { timestamp := 0, function := "f", inAmount := "5", inCurrency := "T"
    outAmount := "0", outCurrency := "EGLD", fee := "2", txHash := "h" }

/-- Two rows sharing key fields, amounts and fee, differing only in timestamp. -/
def exRowC1 : TaxRow :=
  { timestamp := 0, function := "f", inAmount := "5", inCurrency := "T"
    outAmount := "0", outCurrency := "EGLD", fee := "1", txHash := "h" }

def exRowC2 : TaxRow :=
  { timestamp := 9, function := "f", inAmount := "5", inCurrency := "T"
    outAmount := "0", outCurrency := "EGLD", fee := "1", txHash := "h" }

/-! ## Supporting lemmas -/

/-- The digit renderer ignores its fuel as long as the fuel exceeds the
number. -/
theorem natDigitsRevAux_congr : ∀ (n f₁ f₂ : Nat), n < f₁ → n < f₂ →
    natDigitsRevAux f₁ n = natDigitsRevAux f₂ n := by
  intro n
  induction n using Nat.strong_induction_on with
  | _ n ih =>
    intro f₁ f₂ h₁ h₂
    match f₁, f₂ with
    | a + 1, b + 1 =>
      simp only [natDigitsRevAux]
      split
      · rfl
      · have hd : n / 10 < n := Nat.div_lt_self (by omega) (by omega)
        have := ih (n / 10) hd a b (by omega) (by omega)
        simp [this]

/-- Unfolding equation of the digit renderer. -/
theorem natDigitsRev_eq (n : Nat) :
    natDigitsRev n = if n < 10 then [digitChar n]
      else digitChar (n % 10) :: natDigitsRev (n / 10) := by
  unfold natDigitsRev
  conv_lhs => rw [natDigitsRevAux]
  split
  · rfl
  · have hd : n / 10 < n := Nat.div_lt_self (by omega) (by omega)
    rw [natDigitsRevAux_congr (n / 10) n (n / 10 + 1) (by omega) (by omega)]

/-- Rows from the top-level EGLD credit are denominated in EGLD. -/
theorem mem_topLevelRows_inCurrency {wallet : String} {tx : Tx} {func : String} {r : TaxRow}
    (h : r ∈ topLevelRows wallet tx func) : r.inCurrency = "EGLD" := by
  unfold topLevelRows at h
  split at h
  · simp at h; subst h; rfl
  · simp at h

/-- Rows from inbound EGLD operations are denominated in EGLD. -/
theorem mem_egldOpRows_inCurrency {tx : Tx} {func : String} {egldIn : List Op} {b : Bool}
    {r : TaxRow} (h : r ∈ egldOpRows tx func egldIn b) : r.inCurrency = "EGLD" := by
  unfold egldOpRows at h
  obtain ⟨p, hp, rfl⟩ := List.mem_map.mp h
  rfl

/-- For a reward-claim function name the engine emits the base EGLD rows
followed by the claimrewards-branch rows. -/
theorem processTransaction_claim (wallet : String) (decimalsOf : String → Nat)
    (tx : Tx) (detail : Detail)
    (hfunc : jsToLower tx.function = "claimrewards" ∨ jsToLower tx.function = "claimrewardsproxy") :
    processTransaction wallet decimalsOf tx detail =
      topLevelRows wallet tx (jsToLower tx.function) ++
      (egldOpRows tx (jsToLower tx.function) (egldTransfersIn wallet detail.operations)
        (tx.receiver == wallet && decide (0 < tx.value) && jsToLower tx.function != "wrapegld") ++
      claimRewardsRows wallet decimalsOf tx (jsToLower tx.function)
        (tokenTransfersIn wallet detail.operations) detail.events detail.results
        ((tx.receiver == wallet && decide (0 < tx.value) && jsToLower tx.function != "wrapegld") ||
          !(egldTransfersIn wallet detail.operations).isEmpty)) := by
  rcases hfunc with h | h
  all_goals
    simp [processTransaction, h, List.append_assoc]
    intro hmem
    exact absurd (by decide) hmem

/-- The strict-improvement fold keeps the first element attaining the
maximal value: every scanned element is bounded by the result, the seed
is bounded by the result, and the result is the seed or sits in the list
strictly above the seed and everything before it. -/
theorem pickMax_fold_spec : ∀ (t : List Op) (c : Op),
    (∀ o ∈ t, o.value ≤ (t.foldl (fun mx op => if decide (mx.value < op.value) then op else mx) c).value) ∧
    c.value ≤ (t.foldl (fun mx op => if decide (mx.value < op.value) then op else mx) c).value ∧
    (t.foldl (fun mx op => if decide (mx.value < op.value) then op else mx) c = c ∨
      ∃ l₁ l₂, t = l₁ ++ (t.foldl (fun mx op => if decide (mx.value < op.value) then op else mx) c) :: l₂ ∧
        c.value < (t.foldl (fun mx op => if decide (mx.value < op.value) then op else mx) c).value ∧
        ∀ o ∈ l₁, o.value < (t.foldl (fun mx op => if decide (mx.value < op.value) then op else mx) c).value) := by
  intro t
  induction t with
  | nil => intro c; exact ⟨by simp, le_refl _, Or.inl rfl⟩
  | cons a t ih =>
    intro c
    simp only [List.foldl_cons]
    by_cases hca : c.value < a.value
    · have hstep : (if decide (c.value < a.value) then a else c) = a := by simp [hca]
      rw [hstep]
      obtain ⟨ih1, ih2, ih3⟩ := ih a
      refine ⟨?_, le_of_lt (lt_of_lt_of_le hca ih2), ?_⟩
      · intro o ho
        rcases List.mem_cons.mp ho with rfl | ho
        · exact ih2
        · exact ih1 o ho
      · rcases ih3 with heq | ⟨l₁, l₂, hsplit, hlt, hall⟩
        · right
          exact ⟨[], t, by rw [List.nil_append, heq], by rw [heq]; exact hca, by simp⟩
        · right
          refine ⟨a :: l₁, l₂, by rw [List.cons_append, ← hsplit], lt_trans hca hlt, ?_⟩
          intro o ho
          rcases List.mem_cons.mp ho with rfl | ho
          · exact hlt
          · exact hall o ho
    · have hstep : (if decide (c.value < a.value) then a else c) = c := by simp [hca]
      rw [hstep]
      obtain ⟨ih1, ih2, ih3⟩ := ih c
      refine ⟨?_, ih2, ?_⟩
      · intro o ho
        rcases List.mem_cons.mp ho with rfl | ho
        · exact le_trans (le_of_not_lt hca) ih2
        · exact ih1 o ho
      · rcases ih3 with heq | ⟨l₁, l₂, hsplit, hlt, hall⟩
        · exact Or.inl heq
        · right
          refine ⟨a :: l₁, l₂, by rw [List.cons_append, ← hsplit], hlt, ?_⟩
          intro o ho
          rcases List.mem_cons.mp ho with rfl | ho
          · exact lt_of_le_of_lt (le_of_not_lt hca) hlt
          · exact hall o ho

/-- The selected swap leg is the first maximal-value movement: everything
is bounded by it, and everything strictly before it is strictly below
it. -/
theorem swapSelect_first_max (ops : List Op) (sel : Op) (h : swapSelect ops = some sel) :
    (∀ o ∈ ops, o.value ≤ sel.value) ∧
    ∃ l₁ l₂, ops = l₁ ++ sel :: l₂ ∧ ∀ o ∈ l₁, o.value < sel.value := by
  match ops, h with
  | a :: t, h =>
    have hsel : (a :: t).foldl (fun mx op => if decide (mx.value < op.value) then op else mx) a = sel := by
      simpa [swapSelect] using h
    rw [List.foldl_cons] at hsel
    have hred : (if decide (a.value < a.value) then a else a) = a := by simp
    rw [hred] at hsel
    obtain ⟨h1, h2, h3⟩ := pickMax_fold_spec t a
    rw [hsel] at h1 h2 h3
    constructor
    · intro o ho
      rcases List.mem_cons.mp ho with rfl | ho
      · exact h2
      · exact h1 o ho
    · rcases h3 with heq | ⟨l₁, l₂, hsplit, hlt, hall⟩
      · exact ⟨[], t, by rw [List.nil_append, heq], by simp⟩
      · refine ⟨a :: l₁, l₂, by rw [List.cons_append, ← hsplit], ?_⟩
        intro o ho
        rcases List.mem_cons.mp ho with rfl | ho
        · exact hlt
        · exact hall o ho

/-- For a swap function name with both selected legs carrying usable
identifiers the engine emits the base EGLD rows followed by the single
swap row built from the selected legs. -/
theorem processTransaction_swap (wallet : String) (decimalsOf : String → Nat)
    (tx : Tx) (detail : Detail) (selIn selOut : Op)
    (hfunc : jsToLower tx.function = "swap_tokens_fixed_input" ∨
      jsToLower tx.function = "swap_tokens_fixed_output" ∨
      jsToLower tx.function = "multipairswap")
    (hin : swapSelect (tokenTransfersIn wallet detail.operations) = some selIn)
    (hout : swapSelect (tokenTransfersOut wallet detail.operations) = some selOut)
    (hidIn : jsOr selIn.identifier "UNKNOWN" ≠ "UNKNOWN")
    (hidOut : jsOr selOut.identifier "UNKNOWN" ≠ "UNKNOWN") :
    processTransaction wallet decimalsOf tx detail =
      topLevelRows wallet tx (jsToLower tx.function) ++
      (egldOpRows tx (jsToLower tx.function) (egldTransfersIn wallet detail.operations)
        (tx.receiver == wallet && decide (0 < tx.value) && jsToLower tx.function != "wrapegld") ++
      [{ timestamp := tx.timestamp
         function := jsToLower tx.function
         inAmount := formatAmount selIn.value (decimalsOf (jsOr selIn.identifier "UNKNOWN"))
         inCurrency := jsOr selIn.identifier "UNKNOWN"
         outAmount := formatAmount selOut.value (decimalsOf (jsOr selOut.identifier "UNKNOWN"))
         outCurrency := jsOr selOut.identifier "UNKNOWN"
         fee := feeStr tx
         txHash := tx.txHash }]) := by
  have hbIn : (jsOr selIn.identifier "UNKNOWN" != "UNKNOWN") = true := by
    simp [hidIn]
  have hbOut : (jsOr selOut.identifier "UNKNOWN" != "UNKNOWN") = true := by
    simp [hidOut]
  rcases hfunc with h | h | h
  all_goals
    simp [processTransaction, h, hin, hout, hbIn, hbOut, List.append_assoc]
    intro hmem
    exact absurd (by decide) hmem

/-! ## Claim theorems -/

/-- C1: the fee of a transaction is not reported on exactly one output
row.  On a transfer with one inbound and one outbound token movement and
a fee of two whole EGLD, the engine emits two rows both carrying fee 2,
and deduplication keeps both (their keys differ), so the transaction-level
fee appears on two rows instead of one. -/
theorem C1_fee_double_attribution :
    (deduplicateTransactions (processTransaction exWallet exDecimals exTx1 exDetail1)).map
      (fun r => r.fee) = ["2", "2"] := by decide

/-- C2 counterexample: after a failed metadata lookup the cache is left
empty, and a second call for the same identifier issues a new network
request (third component true), contrary to the claim that the fallback
18 is cached. -/
theorem C2_counterexample :
    (getTokenDecimals "FOO-123456" [] .fail).2.1 = [] ∧
    (getTokenDecimals "FOO-123456"
      ((getTokenDecimals "FOO-123456" [] .fail).2.1) .fail).2.2 = true :=
  ⟨rfl, rfl⟩

/-- C2 (amended): getTokenDecimals never raises and returns 18 on an
upstream failure, but it does not cache the fallback: the cache is left
unchanged and the call reports that a network request was issued, so a
subsequent call for the same identifier issues another request. -/
theorem C2_failure_not_cached (token : String) (st : List (String × Nat))
    (h0 : (token == "" || token == "EGLD") = false)
    (h1 : KNOWN_TOKEN_DECIMALS.find? (fun p => p.1 == token) = none)
    (h2 : lookupCache st token = none) :
    getTokenDecimals token st .fail = (18, st, true) := by
  unfold getTokenDecimals
  simp [h0, h1, h2]

/-- C2 witness: the amended statement at a concrete uncached token. -/
theorem C2_failure_not_cached_witness :
    getTokenDecimals "FOO-123456" [] .fail = (18, [], true) :=
  C2_failure_not_cached "FOO-123456" [] (by decide) (by decide) rfl

/-- C3 counterexample: a claimrewards transaction with no movement in any
data source yields exactly one zero-valued row, but its inCurrency is
UNKNOWN rather than EGLD as the claim states. -/
theorem C3_counterexample :
    (processTransaction exWallet exDecimals exTx3 exDetailEmpty).map
      (fun r => (r.inAmount, r.inCurrency, r.outAmount, r.outCurrency)) =
      [("0", "UNKNOWN", "0", "EGLD")] := by decide

/-- C3 (amended): a tax-relevant transaction for which no data source
yields any movement is represented by exactly one zero-valued row; for
reward-claim calls that row carries inCurrency UNKNOWN and outCurrency
EGLD, for every other call both currencies are EGLD.  The mixed-case
aggregateEgld hypothesis holds for every lowercased function name. -/
theorem C3_fallback_row (wallet : String) (decimalsOf : String → Nat) (tx : Tx) (detail : Detail)
    (hval : tx.value = 0 ∨ (tx.receiver ≠ wallet ∧ tx.sender ≠ wallet))
    (hops : detail.operations = []) (hevs : detail.events = []) (hres : detail.results = [])
    (hrel : (TAX_RELEVANT_FUNCTIONS.contains (jsToLower tx.function) ||
      jsToLower tx.function == "" || tx.actionCategory == some "mex" ||
      (match tx.data with | some s => s.startsWith "RVNEVFRyYW5zZmVy" | none => false)) = true)
    (hagg : jsToLower tx.function ≠ "aggregateEgld") :
    processTransaction wallet decimalsOf tx detail =
      if jsToLower tx.function = "claimrewards" ∨ jsToLower tx.function = "claimrewardsproxy" then
        [{ timestamp := tx.timestamp, function := jsToLower tx.function, inAmount := "0",
           inCurrency := "UNKNOWN", outAmount := "0", outCurrency := "EGLD",
           fee := feeStr tx, txHash := tx.txHash }]
      else
        [{ timestamp := tx.timestamp,
           function := if jsToLower tx.function = "" then "unknown" else jsToLower tx.function,
           inAmount := "0", inCurrency := "EGLD", outAmount := "0", outCurrency := "EGLD",
           fee := feeStr tx, txHash := tx.txHash }] := by
  have hval2 : decide (0 < tx.value) = false ∨
      ((tx.receiver == wallet) = false ∧ (tx.sender == wallet) = false) := by
    rcases hval with h | ⟨h1, h2⟩
    · left; simp [h]
    · right; exact ⟨by simp [h1], by simp [h2]⟩
  have hA0 : (tx.receiver == wallet && decide (0 < tx.value) &&
      jsToLower tx.function != "wrapegld") = false := by
    rcases hval2 with h | ⟨h1, h2⟩
    · simp [h]
    · simp [h1]
  have hAgg : (jsToLower tx.function == "aggregateEgld" && tx.sender == wallet &&
      decide (0 < tx.value)) = false := by
    rcases hval2 with h | ⟨h1, h2⟩
    · simp [h]
    · simp [h2]
  have hWrap : (jsToLower tx.function == "wrapegld" && tx.sender == wallet &&
      decide (0 < tx.value)) = false := by
    rcases hval2 with h | ⟨h1, h2⟩
    · simp [h]
    · simp [h2]
  have haggB : (jsToLower tx.function != "aggregateEgld") = true := by
    simp [hagg]
  simp only [processTransaction, hops, hevs, hres, hA0, topLevelRows]
  simp only [egldTransfersIn, tokenTransfersIn, tokenTransfersOut, List.filter_nil]
  simp only [hrel, Bool.not_true, Bool.false_and, Bool.and_false, Bool.not_false,
    Bool.false_or, Bool.or_false, if_neg, Bool.false_eq_true, not_false_iff,
    egldOpRows, List.enum_nil, List.map_nil, List.append_nil, List.nil_append,
    List.isEmpty_nil, hAgg, hWrap, if_false]
  by_cases hclaim : jsToLower tx.function = "claimrewards" ∨ jsToLower tx.function = "claimrewardsproxy"
  · have : (jsToLower tx.function == "claimrewards" ||
        jsToLower tx.function == "claimrewardsproxy") = true := by
      rcases hclaim with h | h <;> simp [h]
    simp [this, hclaim, claimRewardsRows, claimEventFilter, esdtResultFilter]
  · have hcb : (jsToLower tx.function == "claimrewards" ||
        jsToLower tx.function == "claimrewardsproxy") = false := by
      push_neg at hclaim
      simp [hclaim.1, hclaim.2]
    simp only [hcb, if_false, Bool.false_eq_true]
    by_cases hswap : (jsToLower tx.function == "swap_tokens_fixed_input" ||
        jsToLower tx.function == "swap_tokens_fixed_output" ||
        jsToLower tx.function == "multipairswap") = true
    · simp [hswap, hclaim, swapSelect, genericRows, genericTokenInRows,
        genericTokenOutRows, genericEventRows, genericResultRows,
        genericEventFilter, esdtResultFilter, haggB]
    · simp only [Bool.not_eq_true] at hswap
      simp [hswap, hclaim, genericRows, genericTokenInRows,
        genericTokenOutRows, genericEventRows, genericResultRows,
        genericEventFilter, esdtResultFilter, haggB]

/-- C3 witness: the amended statement at a concrete plain transfer with
empty detail, producing the single EGLD-denominated zero row. -/
theorem C3_fallback_row_witness :
    processTransaction exWallet exDecimals exTx3b exDetailEmpty =
      [{ timestamp := 100
         function := "transfer"
         inAmount := "0"
         inCurrency := "EGLD"
         outAmount := "0"
         outCurrency := "EGLD"
         fee := "0"
         txHash := "h3b" }] := by
  have h := C3_fallback_row exWallet exDecimals exTx3b exDetailEmpty
    (Or.inl rfl) rfl rfl rfl (by decide) (by decide)
  rw [if_neg (by decide)] at h
  exact h.trans (by decide)

/-- C6: for a reward-claim transaction whose inbound token movements are
one listed reward token and one liquidity-pool-pattern token (in either
order), the engine emits the row for the reward token (it is the last
row emitted, carrying the reward amount) and emits no row for the
liquidity-pool token. -/
theorem C6_reward_token_selection
    (wallet : String) (decimalsOf : String → Nat) (tx : Tx) (detail : Detail)
    (rTok lTok : String) (opR opL : Op)
    (hfunc : jsToLower tx.function = "claimrewards" ∨ jsToLower tx.function = "claimrewardsproxy")
    (hR : rTok ∈ rewardTokens) (hL : lpTokenTest lTok = true)
    (hopR : tokenOfOp opR = rTok) (hopL : tokenOfOp opL = lTok)
    (hops : tokenTransfersIn wallet detail.operations = [opL, opR] ∨
            tokenTransfersIn wallet detail.operations = [opR, opL]) :
    (processTransaction wallet decimalsOf tx detail).getLast? = some
      { timestamp := tx.timestamp
        function := jsToLower tx.function
        inAmount := formatAmount opR.value (decimalsOf rTok)
        inCurrency := rTok
        outAmount := "0"
        outCurrency := "EGLD"
        fee := feeStr tx
        txHash := tx.txHash } ∧
    ∀ r ∈ processTransaction wallet decimalsOf tx detail, r.inCurrency ≠ lTok := by
  have hallLP : ∀ t ∈ rewardTokens, lpTokenTest t = false := by decide
  have hLne : lTok ∉ rewardTokens := by
    intro hmem
    have := hallLP lTok hmem
    rw [this] at hL
    exact Bool.false_ne_true hL
  have hLneE : lTok ≠ "EGLD" := by
    intro he
    subst he
    have : lpTokenTest "EGLD" = false := by decide
    rw [this] at hL
    exact Bool.false_ne_true hL
  have hRneL : rTok ≠ lTok := by
    intro he
    exact hLne (he ▸ hR)
  have hcontL : rewardTokens.contains lTok = false := by
    rw [Bool.eq_false_iff]
    intro hc
    exact hLne (List.mem_of_elem_eq_true hc)
  have hcontR : rewardTokens.contains rTok = true := List.elem_eq_true_of_mem hR
  have hfind : (tokenTransfersIn wallet detail.operations).find?
      (fun op => rewardTokens.contains (tokenOfOp op)) = some opR := by
    have hdL : decide (lTok ∈ rewardTokens) = false := decide_eq_false hLne
    have hdR : decide (rTok ∈ rewardTokens) = true := decide_eq_true hR
    rcases hops with h | h <;> rw [h] <;>
      simp [List.find?_cons, hopL, hopR, hcontL, hcontR, hdL, hdR]
  have hclaim : claimRewardsRows wallet decimalsOf tx (jsToLower tx.function)
      (tokenTransfersIn wallet detail.operations) detail.events detail.results
      ((tx.receiver == wallet && decide (0 < tx.value) && jsToLower tx.function != "wrapegld") ||
        !(egldTransfersIn wallet detail.operations).isEmpty) =
      [{ timestamp := tx.timestamp
         function := jsToLower tx.function
         inAmount := formatAmount opR.value (decimalsOf rTok)
         inCurrency := rTok
         outAmount := "0"
         outCurrency := "EGLD"
         fee := feeStr tx
         txHash := tx.txHash }] := by
    unfold claimRewardsRows
    rw [hfind]
    simp [hopR]
  rw [processTransaction_claim wallet decimalsOf tx detail hfunc, hclaim]
  constructor
  · rw [← List.append_assoc]
    exact List.getLast?_concat _
  · intro r hr
    rcases List.mem_append.mp hr with h1 | hb
    · rw [mem_topLevelRows_inCurrency h1]
      exact fun he => hLneE he.symm
    · rcases List.mem_append.mp hb with h2 | hc
      · rw [mem_egldOpRows_inCurrency h2]
        exact fun he => hLneE he.symm
      · have heq := List.mem_singleton.mp hc
        subst heq
        simpa using hRneL

/-- C6 witness: the concrete scenario with RIDE-7d18e9 (listed reward)
and XMEXFARM-abcdef (liquidity-pool pattern) inbound: the reward row is
emitted and no row names the liquidity-pool token. -/
theorem C6_reward_token_selection_witness :
    (processTransaction exWallet exDecimals exTx6 exDetail6).getLast? = some
      { timestamp := 100
        function := "claimrewards"
        inAmount := "0.000000000000000044"
        inCurrency := "RIDE-7d18e9"
        outAmount := "0"
        outCurrency := "EGLD"
        fee := "0"
        txHash := "h6" } ∧
    (processTransaction exWallet exDecimals exTx6 exDetail6).all
      (fun r => r.inCurrency != "XMEXFARM-abcdef") = true := by
  have h := C6_reward_token_selection exWallet exDecimals exTx6 exDetail6
    "RIDE-7d18e9" "XMEXFARM-abcdef"
    ⟨"esdt", "c", exWallet, 44, some "RIDE-7d18e9", none⟩
    ⟨"esdt", "c", exWallet, 33, some "XMEXFARM-abcdef", none⟩
    (Or.inl (by decide)) (by decide) (by decide) (by decide) (by decide)
    (Or.inl (by decide))
  exact ⟨h.1.trans (by decide), by decide⟩

/-- C7: for a swap-variant transaction whose selected legs carry usable
identifiers, the engine selects as primary inbound leg the inbound
movement with the highest value (ties broken by insertion order: every
movement is bounded by the selection and everything before the selection
is strictly below it), symmetrically for the outbound leg, and emits the
swap row built from the two selections. -/
theorem C7_swap_primary_leg
    (wallet : String) (decimalsOf : String → Nat) (tx : Tx) (detail : Detail)
    (selIn selOut : Op)
    (hfunc : jsToLower tx.function = "swap_tokens_fixed_input" ∨
      jsToLower tx.function = "swap_tokens_fixed_output" ∨
      jsToLower tx.function = "multipairswap")
    (hin : swapSelect (tokenTransfersIn wallet detail.operations) = some selIn)
    (hout : swapSelect (tokenTransfersOut wallet detail.operations) = some selOut)
    (hidIn : jsOr selIn.identifier "UNKNOWN" ≠ "UNKNOWN")
    (hidOut : jsOr selOut.identifier "UNKNOWN" ≠ "UNKNOWN") :
    ((∀ o ∈ tokenTransfersIn wallet detail.operations, o.value ≤ selIn.value) ∧
      ∃ l₁ l₂, tokenTransfersIn wallet detail.operations = l₁ ++ selIn :: l₂ ∧
        ∀ o ∈ l₁, o.value < selIn.value) ∧
    ((∀ o ∈ tokenTransfersOut wallet detail.operations, o.value ≤ selOut.value) ∧
      ∃ l₁ l₂, tokenTransfersOut wallet detail.operations = l₁ ++ selOut :: l₂ ∧
        ∀ o ∈ l₁, o.value < selOut.value) ∧
    (processTransaction wallet decimalsOf tx detail).getLast? = some
      { timestamp := tx.timestamp
        function := jsToLower tx.function
        inAmount := formatAmount selIn.value (decimalsOf (jsOr selIn.identifier "UNKNOWN"))
        inCurrency := jsOr selIn.identifier "UNKNOWN"
        outAmount := formatAmount selOut.value (decimalsOf (jsOr selOut.identifier "UNKNOWN"))
        outCurrency := jsOr selOut.identifier "UNKNOWN"
        fee := feeStr tx
        txHash := tx.txHash } := by
  refine ⟨swapSelect_first_max _ _ hin, swapSelect_first_max _ _ hout, ?_⟩
  rw [processTransaction_swap wallet decimalsOf tx detail selIn selOut hfunc hin hout hidIn hidOut]
  rw [← List.append_assoc]
  exact List.getLast?_concat _

/-- C7 witness: with inbound movements of 500 and 10 the engine selects
500 as the primary inbound leg (and the single outbound movement of 777
as the outbound leg). -/
theorem C7_swap_primary_leg_witness :
    (processTransaction exWallet exDecimals exTx7 exDetail7).getLast? = some
      { timestamp := 100
        function := "swap_tokens_fixed_input"
        inAmount := "0.0000000000000005"
        inCurrency := "MAIN-000001"
        outAmount := "0.000000000000000777"
        outCurrency := "PAY-000001"
        fee := "0"
        txHash := "h7" } ∧
    (tokenTransfersIn exWallet exDetail7.operations).all
      (fun o => decide (o.value ≤ 500)) = true := by
  have h := C7_swap_primary_leg exWallet exDecimals exTx7 exDetail7
    ⟨"esdt", "pool", exWallet, 500, some "MAIN-000001", none⟩
    ⟨"esdt", exWallet, "pool", 777, some "PAY-000001", none⟩
    (Or.inl (by decide)) (by decide) (by decide) (by decide) (by decide)
  exact ⟨h.2.2.trans (by decide), by decide⟩

/-- C8 counterexample: a request whose fromDate does not parse to a valid
instant is not rejected: the validation outcome proceeds to the cache
check and upstream calls, because every comparison against an invalid
date is false. -/
theorem C8_counterexample :
    isBadRequest (fetchTransactionsValidate exReq8 exDateMs) = false := by rfl

/-- C8 (amended): when both dates parse and fromDate is later than
toDate, the endpoint responds 400 Invalid date range before any upstream
call (upstream requests are issued only on the proceed outcome);
unparseable dates are not themselves rejected in this revision. -/
theorem C8_date_range_400 (req : FetchRequest) (dateMs : String → Option Int) (a b : Int)
    (hw : truthyStr req.walletAddress = true) (hf : truthyStr req.fromDate = true)
    (ht : truthyStr req.toDate = true) (hc : truthyStr req.clientId = true)
    (hv : validateWalletAddress (req.walletAddress.getD "") = true)
    (hfa : dateMs (req.fromDate.getD "") = some a)
    (htb : dateMs (req.toDate.getD "") = some b)
    (hab : b < a) :
    fetchTransactionsValidate req dateMs = .badRequest "Invalid date range" := by
  unfold fetchTransactionsValidate
  simp [hw, hf, ht, hc, hv, hfa, htb, jsDateGt, hab]

/-- C8 witness: the amended statement at a concrete request with
reversed dates. -/
theorem C8_date_range_400_witness :
    fetchTransactionsValidate exReq8b exDateMs2 = .badRequest "Invalid date range" :=
  C8_date_range_400 exReq8b exDateMs2 1704153600000 1704067200000
    (by decide) (by decide) (by decide) (by decide) (by decide) (by decide) (by decide) (by decide)

/-- C10: a POST fetch-transactions request whose clientId is absent (or
empty, hence falsy) receives 400 Missing required parameters regardless
of the other fields, before any upstream call (upstream requests are
issued only on the proceed outcome). -/
theorem C10_missing_clientId_400 (req : FetchRequest) (dateMs : String → Option Int)
    (h : req.clientId = none ∨ req.clientId = some "") :
    fetchTransactionsValidate req dateMs = .badRequest "Missing required parameters" := by
  have hc : truthyStr req.clientId = false := by
    rcases h with h | h <;> simp [truthyStr, h]
  unfold fetchTransactionsValidate
  simp [hc]

/-- C10 witness: a concrete request missing only clientId. -/
theorem C10_missing_clientId_400_witness :
    fetchTransactionsValidate exReq10 exDateMs2 = .badRequest "Missing required parameters" :=
  C10_missing_clientId_400 exReq10 exDateMs2 (Or.inl rfl)

/-- C4 counterexample: deduplication is not idempotent on arbitrary rows.
With colon-bearing fields two distinct key splits join to the same key
string; merging then rewrites the stored currency so that the first pass
emits two rows that collide on the second pass. -/
theorem C4_counterexample :
    deduplicateTransactions (deduplicateTransactions [exRowP, exRowQ, exRowR]) ≠
      deduplicateTransactions [exRowP, exRowQ, exRowR] := by decide

/-- C5 counterexample: the merge is not order-invariant in its fee.  Two
rows sharing one key but carrying distinct nonzero fees keep the fee of
whichever came first, so the two orders of the same pair produce
different merged fees. -/
theorem C5_counterexample :
    [exRowB2, exRowB1].Perm [exRowB1, exRowB2] ∧
    (deduplicateTransactions [exRowB1, exRowB2]).map rowLegs ≠
      (deduplicateTransactions [exRowB2, exRowB1]).map rowLegs := by
  constructor
  · exact List.Perm.swap exRowB1 exRowB2 []
  · decide

theorem noColon_iff {s : String} : noColon s = true ↔ ':' ∉ s.data := by
  unfold noColon
  simp

theorem mkKey_data (r : TaxRow) : (mkKey r).data =
    r.txHash.data ++ ':' :: (r.function.data ++ ':' :: (r.inCurrency.data ++ ':' :: r.outCurrency.data)) := by
  simp [mkKey, String.data_append]

theorem colonJoin_inj : ∀ (a b r s : List Char), ':' ∉ a → ':' ∉ b →
    a ++ ':' :: r = b ++ ':' :: s → a = b ∧ r = s := by
  intro a
  induction a with
  | nil =>
    intro b r s ha hb h
    cases b with
    | nil => simpa using h
    | cons y ys =>
      simp only [List.nil_append, List.cons_append, List.cons.injEq] at h
      exfalso
      apply hb
      rw [← h.1]
      exact List.mem_cons_self ':' ys
  | cons x xs ih =>
    intro b r s ha hb h
    cases b with
    | nil =>
      simp only [List.cons_append, List.nil_append, List.cons.injEq] at h
      exfalso
      apply ha
      rw [h.1]
      exact List.mem_cons_self ':' xs
    | cons y ys =>
      simp only [List.cons_append, List.cons.injEq] at h
      obtain ⟨hxy, hrest⟩ := h
      have ha2 : ':' ∉ xs := fun hc => ha (List.mem_cons_of_mem x hc)
      have hb2 : ':' ∉ ys := fun hc => hb (List.mem_cons_of_mem y hc)
      obtain ⟨h1, h2⟩ := ih ys r s ha2 hb2 hrest
      exact ⟨by rw [hxy, h1], h2⟩

theorem mkKey_inj {r s : TaxRow} (hr : colonFreeRow r = true) (hs : colonFreeRow s = true)
    (h : mkKey r = mkKey s) :
    r.txHash = s.txHash ∧ r.function = s.function ∧
    r.inCurrency = s.inCurrency ∧ r.outCurrency = s.outCurrency := by
  unfold colonFreeRow at hr hs
  rw [Bool.and_eq_true, Bool.and_eq_true, Bool.and_eq_true] at hr hs
  obtain ⟨⟨⟨hr1, hr2⟩, hr3⟩, hr4⟩ := hr
  obtain ⟨⟨⟨hs1, hs2⟩, hs3⟩, hs4⟩ := hs
  rw [noColon_iff] at hr1 hr2 hr3 hr4 hs1 hs2 hs3 hs4
  have hd : (mkKey r).data = (mkKey s).data := by rw [h]
  rw [mkKey_data, mkKey_data] at hd
  obtain ⟨e1, hd⟩ := colonJoin_inj _ _ _ _ hr1 hs1 hd
  obtain ⟨e2, hd⟩ := colonJoin_inj _ _ _ _ hr2 hs2 hd
  obtain ⟨e3, e4⟩ := colonJoin_inj _ _ _ _ hr3 hs3 hd
  exact ⟨String.ext e1, String.ext e2, String.ext e3, String.ext e4⟩

theorem mergeEntry_key (e : DedupEntry) (tx : TaxRow) : (mergeEntry e tx).key = e.key := by
  unfold mergeEntry
  dsimp only
  split_ifs <;> rfl

theorem mergeEntry_timestamp (e : DedupEntry) (tx : TaxRow) :
    (mergeEntry e tx).timestamp = e.timestamp := by
  unfold mergeEntry
  dsimp only
  split_ifs <;> rfl

theorem mergeEntry_function (e : DedupEntry) (tx : TaxRow) :
    (mergeEntry e tx).function = e.function := by
  unfold mergeEntry
  dsimp only
  split_ifs <;> rfl

theorem mergeEntry_txHash (e : DedupEntry) (tx : TaxRow) :
    (mergeEntry e tx).txHash = e.txHash := by
  unfold mergeEntry
  dsimp only
  split_ifs <;> rfl

theorem mergeEntry_fee (e : DedupEntry) (tx : TaxRow) :
    (mergeEntry e tx).fee = feeStep e.fee tx.fee := by
  unfold mergeEntry feeStep
  dsimp only
  split_ifs <;> rfl

theorem mergeEntry_inCurrency_cases (e : DedupEntry) (tx : TaxRow) :
    (mergeEntry e tx).inCurrency = e.inCurrency ∨ (mergeEntry e tx).inCurrency = tx.inCurrency := by
  unfold mergeEntry
  dsimp only
  split_ifs <;> simp

theorem mergeEntry_outCurrency_cases (e : DedupEntry) (tx : TaxRow) :
    (mergeEntry e tx).outCurrency = e.outCurrency ∨ (mergeEntry e tx).outCurrency = tx.outCurrency := by
  unfold mergeEntry
  dsimp only
  split_ifs <;> simp

theorem projectEntry_newEntry (r : TaxRow) : projectEntry (newEntry r) = r := rfl

theorem mergeEntry_fields_of_key (e : DedupEntry) (tx : TaxRow)
    (hgood : GoodEntry e) (hhit : e.key = mkKey tx) (htx : colonFreeRow tx = true) :
    (mergeEntry e tx).inCurrency = e.inCurrency ∧ (mergeEntry e tx).outCurrency = e.outCurrency := by
  have hk : mkKey tx = mkKey (projectEntry e) := by
    rw [← hhit]
    exact (hgood.1).symm
  obtain ⟨h1, h2, h3, h4⟩ := mkKey_inj htx hgood.2 hk
  constructor
  · rcases mergeEntry_inCurrency_cases e tx with h | h
    · exact h
    · rw [h]; exact h3.symm ▸ rfl
  · rcases mergeEntry_outCurrency_cases e tx with h | h
    · exact h
    · rw [h]; exact h4.symm ▸ rfl

theorem mergeEntry_good (e : DedupEntry) (tx : TaxRow)
    (hgood : GoodEntry e) (hhit : e.key = mkKey tx) (htx : colonFreeRow tx = true) :
    GoodEntry (mergeEntry e tx) := by
  obtain ⟨hic, hoc⟩ := mergeEntry_fields_of_key e tx hgood hhit htx
  constructor
  · unfold entryKey
    rw [mergeEntry_txHash, mergeEntry_function, hic, hoc, mergeEntry_key]
    exact hgood.1
  · have hcf := hgood.2
    unfold colonFreeRow projectEntry at hcf ⊢
    dsimp only at hcf ⊢
    rw [mergeEntry_txHash, mergeEntry_function, hic, hoc]
    exact hcf

theorem dedupeStep_good (acc : List DedupEntry) (tx : TaxRow)
    (hacc : GoodAcc acc) (htx : colonFreeRow tx = true) : GoodAcc (dedupeStep acc tx) := by
  unfold dedupeStep
  split_ifs with hhit
  · constructor
    · intro e he
      obtain ⟨e0, he0, rfl⟩ := List.mem_map.mp he
      by_cases hk : e0.key = mkKey tx
      · rw [if_pos hk]
        exact mergeEntry_good e0 tx (hacc.1 e0 he0) hk htx
      · rw [if_neg hk]
        exact hacc.1 e0 he0
    · have : (acc.map (fun e => if e.key = mkKey tx then mergeEntry e tx else e)).map (fun e => e.key) =
          acc.map (fun e => e.key) := by
        rw [List.map_map]
        apply List.map_congr_left
        intro e he
        by_cases hk : e.key = mkKey tx
        · simp only [Function.comp_apply, if_pos hk, mergeEntry_key]
        · simp only [Function.comp_apply, if_neg hk]
      rw [this]
      exact hacc.2
  · constructor
    · intro e he
      rcases List.mem_append.mp he with h1 | h2
      · exact hacc.1 e h1
      · have : e = newEntry tx := List.mem_singleton.mp h2
        subst this
        exact ⟨rfl, htx⟩
    · rw [List.map_append]
      simp only [List.map_cons, List.map_nil]
      rw [List.nodup_append]
      refine ⟨hacc.2, List.nodup_singleton _, ?_⟩
      intro k hk hmem
      simp only [List.mem_singleton] at hmem
      obtain ⟨e0, he0, hke⟩ := List.mem_map.mp hk
      rw [Bool.not_eq_true, List.any_eq_false] at hhit
      have hne := hhit e0 he0
      simp only [decide_eq_true_eq] at hne
      apply hne
      rw [hke, hmem]
      rfl

theorem foldl_dedupeStep_good : ∀ (l : List TaxRow), (∀ r ∈ l, colonFreeRow r = true) →
    ∀ acc, GoodAcc acc → GoodAcc (l.foldl dedupeStep acc) := by
  intro l
  induction l with
  | nil => intro _ acc hacc; exact hacc
  | cons r t ih =>
    intro hl acc hacc
    rw [List.foldl_cons]
    exact ih (fun x hx => hl x (List.mem_cons_of_mem r hx)) _
      (dedupeStep_good acc r hacc (hl r (List.mem_cons_self r t)))

theorem foldl_dedupeStep_fresh : ∀ (l : List TaxRow) (acc : List DedupEntry),
    (∀ r ∈ l, ∀ e ∈ acc, e.key ≠ mkKey r) → (l.map mkKey).Nodup →
    l.foldl dedupeStep acc = acc ++ l.map newEntry := by
  intro l
  induction l with
  | nil => intro acc _ _; simp
  | cons r t ih =>
    intro acc hfresh hnd
    rw [List.foldl_cons]
    have hmiss : (acc.any fun e => decide (e.key = mkKey r)) = false := by
      rw [List.any_eq_false]
      intro e he
      simp only [decide_eq_true_eq]
      exact hfresh r (List.mem_cons_self r t) e he
    have hstep : dedupeStep acc r = acc ++ [newEntry r] := by
      unfold dedupeStep
      rw [if_neg]
      rw [hmiss]
      exact Bool.false_ne_true
    rw [hstep]
    rw [List.map_cons] at hnd
    have hnd2 := List.Nodup.of_cons hnd
    have hne : mkKey r ∉ t.map mkKey := (List.nodup_cons.mp hnd).1
    have hfresh2 : ∀ x ∈ t, ∀ e ∈ acc ++ [newEntry r], e.key ≠ mkKey x := by
      intro x hx e he
      rcases List.mem_append.mp he with h1 | h2
      · exact hfresh x (List.mem_cons_of_mem r hx) e h1
      · have : e = newEntry r := List.mem_singleton.mp h2
        subst this
        intro hcon
        apply hne
        have : mkKey r = mkKey x := hcon
        rw [this]
        exact List.mem_map_of_mem mkKey hx
    rw [ih (acc ++ [newEntry r]) hfresh2 hnd2]
    simp

theorem dedupe_distinct_id (l : List TaxRow) (hnd : (l.map mkKey).Nodup) :
    deduplicateTransactions l = l := by
  unfold deduplicateTransactions
  rw [foldl_dedupeStep_fresh l [] (by intro r _ e he; simp at he) hnd]
  rw [List.nil_append, List.map_map]
  have : l.map (projectEntry ∘ newEntry) = l.map id := by
    apply List.map_congr_left
    intro r _
    exact projectEntry_newEntry r
  rw [this, List.map_id]

/-- C4 (amended): deduplicateTransactions is idempotent on every list of
rows whose key fields (txHash, function, inCurrency, outCurrency) are
free of the colon separator; with colon-bearing fields distinct key
splits can alias one joined key, which breaks idempotence (see the
counterexample). -/
theorem C4_dedupe_idempotent (X : List TaxRow) (h : ∀ r ∈ X, colonFreeRow r = true) :
    deduplicateTransactions (deduplicateTransactions X) = deduplicateTransactions X := by
  have hgood := foldl_dedupeStep_good X h [] ⟨by intro e he; simp at he, by simp⟩
  have hkeys : ((deduplicateTransactions X).map mkKey).Nodup := by
    unfold deduplicateTransactions
    rw [List.map_map]
    have heq : (X.foldl dedupeStep []).map (mkKey ∘ projectEntry) =
        (X.foldl dedupeStep []).map (fun e => e.key) := by
      apply List.map_congr_left
      intro e he
      exact (hgood.1 e he).1
    rw [heq]
    exact hgood.2
  exact dedupe_distinct_id _ hkeys

/-- C4 witness: the amended statement at a concrete two-row list. -/
theorem C4_dedupe_idempotent_witness :
    deduplicateTransactions (deduplicateTransactions [exRowB1, exRowB2]) =
      deduplicateTransactions [exRowB1, exRowB2] :=
  C4_dedupe_idempotent [exRowB1, exRowB2] (by decide)

theorem gtDec_iff_q {a b : String} {x y : Int × Nat}
    (ha : parseDec a = some x) (hb : parseDec b = some y) :
    gtDec a b = true ↔ qOfScaled y < qOfScaled x := by
  unfold gtDec
  rw [ha, hb]
  simp only [decide_eq_true_eq]
  unfold qOfScaled
  rw [div_lt_div_iff₀ (by positivity) (by positivity)]
  constructor
  · intro h
    exact_mod_cast h
  · intro h
    exact_mod_cast h

theorem parsesDec_iff {s : String} : parsesDec s = true ↔ ∃ x, parseDec s = some x := by
  unfold parsesDec
  cases h : parseDec s <;> simp [h]

theorem pickLarger_zero_left (a : String) : pickLarger "0" a = a := by
  unfold pickLarger
  by_cases h : a = "0"
  · rw [if_pos h, h]
  · rw [if_neg h, if_pos rfl]

theorem pickLarger_zero_right (c : String) : pickLarger c "0" = c := by
  unfold pickLarger
  rw [if_pos rfl]

theorem pickLarger_parses {c a : String} (hc : parsesDec c = true) (ha : parsesDec a = true) :
    parsesDec (pickLarger c a) = true := by
  unfold pickLarger
  split_ifs <;> assumption

theorem pickLarger_comm_nz {a b : String} {va vb : Int × Nat}
    (hA : a ≠ "0") (hB : b ≠ "0")
    (ha : parseDec a = some va) (hb : parseDec b = some vb)
    (hinj : qOfScaled va = qOfScaled vb → a = b) :
    pickLarger a b = pickLarger b a := by
  unfold pickLarger
  rw [if_neg hB, if_neg hA, if_neg hA, if_neg hB]
  rcases lt_trichotomy (qOfScaled va) (qOfScaled vb) with h | h | h
  · have hgt1 : gtDec b a = true := (gtDec_iff_q hb ha).mpr h
    have hgt2 : ¬ gtDec a b = true := by
      rw [gtDec_iff_q ha hb]
      exact not_lt.mpr (le_of_lt h)
    rw [if_pos hgt1, if_neg hgt2]
  · rw [hinj h]
  · have hgt1 : ¬ gtDec b a = true := by
      rw [gtDec_iff_q hb ha]
      exact not_lt.mpr (le_of_lt h)
    have hgt2 : gtDec a b = true := (gtDec_iff_q ha hb).mpr h
    rw [if_neg hgt1, if_pos hgt2]

theorem pickLarger_nz {x y : String} (hx : x ≠ "0") (hy : y ≠ "0") :
    pickLarger x y = if gtDec y x = true then y else x := by
  unfold pickLarger
  rw [if_neg hy, if_neg hx]

theorem pickLarger_left_comm {c a b : String} {va vb : Int × Nat}
    (hc : parsesDec c = true) (ha : parseDec a = some va) (hb : parseDec b = some vb)
    (hinj : qOfScaled va = qOfScaled vb → a = b) :
    pickLarger (pickLarger c a) b = pickLarger (pickLarger c b) a := by
  by_cases hA : a = "0"
  · subst hA
    rw [pickLarger_zero_right, pickLarger_zero_right]
  by_cases hB : b = "0"
  · subst hB
    rw [pickLarger_zero_right, pickLarger_zero_right]
  by_cases hC : c = "0"
  · subst hC
    rw [pickLarger_zero_left, pickLarger_zero_left]
    exact pickLarger_comm_nz hA hB ha hb hinj
  obtain ⟨vc, hvc⟩ := parsesDec_iff.mp hc
  by_cases h1 : gtDec a c = true
  · have hLc : pickLarger c a = a := by rw [pickLarger_nz hC hA, if_pos h1]
    rw [hLc]
    by_cases h2 : gtDec b c = true
    · have hRc : pickLarger c b = b := by rw [pickLarger_nz hC hB, if_pos h2]
      rw [hRc]
      exact pickLarger_comm_nz hA hB ha hb hinj
    · have hRc : pickLarger c b = c := by rw [pickLarger_nz hC hB, if_neg h2]
      rw [hRc]
      have hqa : qOfScaled vc < qOfScaled va := (gtDec_iff_q ha hvc).mp h1
      have hqb : ¬ qOfScaled vc < qOfScaled vb := fun hlt => h2 ((gtDec_iff_q hb hvc).mpr hlt)
      have hba : ¬ gtDec b a = true := by
        rw [gtDec_iff_q hb ha]
        push_neg at hqb
        exact not_lt.mpr (le_trans hqb (le_of_lt hqa))
      rw [pickLarger_nz hA hB, if_neg hba, pickLarger_nz hC hA, if_pos h1]
  · have hLc : pickLarger c a = c := by rw [pickLarger_nz hC hA, if_neg h1]
    rw [hLc]
    by_cases h2 : gtDec b c = true
    · have hRc : pickLarger c b = b := by rw [pickLarger_nz hC hB, if_pos h2]
      rw [hRc]
      have hqb : qOfScaled vc < qOfScaled vb := (gtDec_iff_q hb hvc).mp h2
      have hqa : ¬ qOfScaled vc < qOfScaled va := fun hlt => h1 ((gtDec_iff_q ha hvc).mpr hlt)
      have hab : ¬ gtDec a b = true := by
        rw [gtDec_iff_q ha hb]
        push_neg at hqa
        exact not_lt.mpr (le_trans hqa (le_of_lt hqb))
      rw [pickLarger_nz hB hA, if_neg hab]
    · have hRc : pickLarger c b = c := by rw [pickLarger_nz hC hB, if_neg h2]
      rw [hRc]
      exact hLc.symm

theorem pickFold_perm {A B : List String} (hperm : A.Perm B) :
    ∀ (c : String), parsesDec c = true →
    (∀ a ∈ A, parsesDec a = true) →
    (∀ a ∈ A, ∀ b ∈ A, parseDecQ a = parseDecQ b → a = b) →
    A.foldl pickLarger c = B.foldl pickLarger c := by
  induction hperm with
  | nil => intro c _ _ _; rfl
  | cons x h ih =>
    intro c hc hA hinj
    rw [List.foldl_cons, List.foldl_cons]
    refine ih (pickLarger c x) (pickLarger_parses hc (hA x (List.mem_cons_self _ _))) ?_ ?_
    · intro a haa
      exact hA a (List.mem_cons_of_mem _ haa)
    · intro a haa b hbb heq
      exact hinj a (List.mem_cons_of_mem _ haa) b (List.mem_cons_of_mem _ hbb) heq
  | swap x y l =>
    intro c hc hA hinj
    rw [List.foldl_cons, List.foldl_cons, List.foldl_cons, List.foldl_cons]
    obtain ⟨vy, hvy⟩ := parsesDec_iff.mp (hA y (by simp))
    obtain ⟨vx, hvx⟩ := parsesDec_iff.mp (hA x (by simp))
    have hinj2 : qOfScaled vy = qOfScaled vx → y = x := by
      intro he
      apply hinj y (by simp) x (by simp)
      unfold parseDecQ
      rw [hvy, hvx]
      simp [he]
    rw [pickLarger_left_comm hc hvy hvx hinj2]
  | trans h1 h2 ih1 ih2 =>
    intro c hc hA hinj
    rw [ih1 c hc hA hinj]
    apply ih2 c hc
    · intro a haa
      exact hA a (h1.mem_iff.mpr haa)
    · intro a haa b hbb
      exact hinj a (h1.mem_iff.mpr haa) b (h1.mem_iff.mpr hbb)

theorem mergeEntry_in_spec (e : DedupEntry) (tx : TaxRow) :
    ((mergeEntry e tx).inAmount, (mergeEntry e tx).inAmounts) =
      if tx.inAmount ≠ "0" ∧
          ¬ e.inAmounts.any (fun a => a.1 = tx.inAmount ∧ a.2 = tx.inCurrency) then
        ((if e.inAmount = "0" ∨ gtDec tx.inAmount e.inAmount then tx.inAmount else e.inAmount),
          e.inAmounts ++ [(tx.inAmount, tx.inCurrency)])
      else (e.inAmount, e.inAmounts) := by
  unfold mergeEntry
  dsimp only
  split_ifs <;> rfl

theorem mergeEntry_out_spec (e : DedupEntry) (tx : TaxRow) :
    ((mergeEntry e tx).outAmount, (mergeEntry e tx).outAmounts) =
      if tx.outAmount ≠ "0" ∧
          ¬ e.outAmounts.any (fun a => a.1 = tx.outAmount ∧ a.2 = tx.outCurrency) then
        ((if e.outAmount = "0" ∨ gtDec tx.outAmount e.outAmount then tx.outAmount else e.outAmount),
          e.outAmounts ++ [(tx.outAmount, tx.outCurrency)])
      else (e.outAmount, e.outAmounts) := by
  unfold mergeEntry
  dsimp only
  split_ifs <;> rfl

theorem pickLarger_spec_nz {c a : String} {vc va : Int × Nat}
    (hcne : c ≠ "0") (hane : a ≠ "0")
    (hc : parseDec c = some vc) (ha : parseDec a = some va) :
    pickLarger c a ≠ "0" ∧ ∃ w, parseDec (pickLarger c a) = some w ∧
      qOfScaled vc ≤ qOfScaled w ∧ qOfScaled va ≤ qOfScaled w := by
  rw [pickLarger_nz hcne hane]
  by_cases hgt : gtDec a c = true
  · rw [if_pos hgt]
    have := (gtDec_iff_q ha hc).mp hgt
    exact ⟨hane, va, ha, le_of_lt this, le_refl _⟩
  · rw [if_neg hgt]
    have hnlt : ¬ qOfScaled vc < qOfScaled va := by
      rw [← gtDec_iff_q ha hc]
      exact hgt
    exact ⟨hcne, vc, hc, le_refl _, not_lt.mp hnlt⟩

theorem mergeEntry_in_bridge (e : DedupEntry) (tx : TaxRow)
    (hinv : InvInP e) (htx : parsesDec tx.inAmount = true) :
    (mergeEntry e tx).inAmount = pickLarger e.inAmount tx.inAmount ∧
    InvInP (mergeEntry e tx) := by
  obtain ⟨hpc, haux, hnz⟩ := hinv
  have hspec := mergeEntry_in_spec e tx
  by_cases h0 : tx.inAmount = "0"
  · have hcond : ¬ (tx.inAmount ≠ "0" ∧
        ¬ (e.inAmounts.any (fun a => a.1 = tx.inAmount ∧ a.2 = tx.inCurrency)) = true) :=
      fun hcc => hcc.1 h0
    rw [if_neg hcond, Prod.mk.injEq] at hspec
    obtain ⟨h1, h2⟩ := hspec
    constructor
    · rw [h1, h0, pickLarger_zero_right]
    · unfold InvInP
      rw [h1, h2]
      exact ⟨hpc, haux, hnz⟩
  · by_cases hsup : (e.inAmounts.any (fun a => a.1 = tx.inAmount ∧ a.2 = tx.inCurrency)) = true
    · have hcond : ¬ (tx.inAmount ≠ "0" ∧
          ¬ (e.inAmounts.any (fun a => a.1 = tx.inAmount ∧ a.2 = tx.inCurrency)) = true) :=
        fun hcc => hcc.2 hsup
      rw [if_neg hcond, Prod.mk.injEq] at hspec
      obtain ⟨h1, h2⟩ := hspec
      have hpickeq : pickLarger e.inAmount tx.inAmount = e.inAmount := by
        obtain ⟨p, hp, hpeq⟩ := List.any_eq_true.mp hsup
        simp only [decide_eq_true_eq] at hpeq
        obtain ⟨hpa, hpcur⟩ := hpeq
        obtain ⟨hp0, hppar, hple⟩ := haux p hp
        have hcne : e.inAmount ≠ "0" := hnz (by
          intro hc
          rw [hc] at hp
          exact List.not_mem_nil p hp)
        obtain ⟨x, y, hx, hy, hle⟩ := hple
        rw [hpa] at hx
        have hgt : ¬ gtDec tx.inAmount e.inAmount = true := by
          rw [gtDec_iff_q hx hy]
          exact not_lt.mpr hle
        rw [pickLarger_nz hcne h0, if_neg hgt]
      constructor
      · rw [h1, hpickeq]
      · unfold InvInP
        rw [h1, h2]
        exact ⟨hpc, haux, hnz⟩
    · have hcond : tx.inAmount ≠ "0" ∧
          ¬ (e.inAmounts.any (fun a => a.1 = tx.inAmount ∧ a.2 = tx.inCurrency)) = true :=
        ⟨h0, hsup⟩
      rw [if_pos hcond, Prod.mk.injEq] at hspec
      obtain ⟨h1, h2⟩ := hspec
      have hpick : (if e.inAmount = "0" ∨ gtDec tx.inAmount e.inAmount = true
          then tx.inAmount else e.inAmount) = pickLarger e.inAmount tx.inAmount := by
        unfold pickLarger
        rw [if_neg h0]
        by_cases hc0 : e.inAmount = "0"
        · rw [if_pos hc0, if_pos (Or.inl hc0)]
        · rw [if_neg hc0]
          by_cases hgt : gtDec tx.inAmount e.inAmount = true
          · rw [if_pos (Or.inr hgt), if_pos hgt]
          · rw [if_neg (not_or.mpr ⟨hc0, hgt⟩), if_neg hgt]
      obtain ⟨vt, hvt⟩ := parsesDec_iff.mp htx
      obtain ⟨vc, hvc⟩ := parsesDec_iff.mp hpc
      constructor
      · rw [h1, hpick]
      · unfold InvInP
        rw [h1, hpick, h2]
        refine ⟨pickLarger_parses hpc htx, ?_, ?_⟩
        · intro p hp
          rcases List.mem_append.mp hp with hold | hnew
          · obtain ⟨hp0, hppar, hple⟩ := haux p hold
            refine ⟨hp0, hppar, ?_⟩
            have hcne : e.inAmount ≠ "0" := hnz (by
              intro hc
              rw [hc] at hold
              exact List.not_mem_nil p hold)
            obtain ⟨x, y, hx, hy, hle⟩ := hple
            have hyvc : y = vc := by
              rw [hvc] at hy
              exact (Option.some.inj hy).symm
            subst hyvc
            obtain ⟨hne, w, hw, hcw, haw⟩ := pickLarger_spec_nz hcne h0 hvc hvt
            exact ⟨x, w, hx, hw, le_trans hle hcw⟩
          · have hpef : p = (tx.inAmount, tx.inCurrency) := List.mem_singleton.mp hnew
            subst hpef
            refine ⟨h0, htx, ?_⟩
            by_cases hc0 : e.inAmount = "0"
            · rw [hc0, pickLarger_zero_left]
              exact ⟨vt, vt, hvt, hvt, le_refl _⟩
            · obtain ⟨hne, w, hw, hcw, haw⟩ := pickLarger_spec_nz hc0 h0 hvc hvt
              exact ⟨vt, w, hvt, hw, haw⟩
        · intro _
          by_cases hc0 : e.inAmount = "0"
          · rw [hc0, pickLarger_zero_left]
            exact h0
          · exact (pickLarger_spec_nz hc0 h0 hvc hvt).1

theorem mergeEntry_out_bridge (e : DedupEntry) (tx : TaxRow)
    (hinv : InvOutP e) (htx : parsesDec tx.outAmount = true) :
    (mergeEntry e tx).outAmount = pickLarger e.outAmount tx.outAmount ∧
    InvOutP (mergeEntry e tx) := by
  obtain ⟨hpc, haux, hnz⟩ := hinv
  have hspec := mergeEntry_out_spec e tx
  by_cases h0 : tx.outAmount = "0"
  · have hcond : ¬ (tx.outAmount ≠ "0" ∧
        ¬ (e.outAmounts.any (fun a => a.1 = tx.outAmount ∧ a.2 = tx.outCurrency)) = true) :=
      fun hcc => hcc.1 h0
    rw [if_neg hcond, Prod.mk.injEq] at hspec
    obtain ⟨h1, h2⟩ := hspec
    constructor
    · rw [h1, h0, pickLarger_zero_right]
    · unfold InvOutP
      rw [h1, h2]
      exact ⟨hpc, haux, hnz⟩
  · by_cases hsup : (e.outAmounts.any (fun a => a.1 = tx.outAmount ∧ a.2 = tx.outCurrency)) = true
    · have hcond : ¬ (tx.outAmount ≠ "0" ∧
          ¬ (e.outAmounts.any (fun a => a.1 = tx.outAmount ∧ a.2 = tx.outCurrency)) = true) :=
        fun hcc => hcc.2 hsup
      rw [if_neg hcond, Prod.mk.injEq] at hspec
      obtain ⟨h1, h2⟩ := hspec
      have hpickeq : pickLarger e.outAmount tx.outAmount = e.outAmount := by
        obtain ⟨p, hp, hpeq⟩ := List.any_eq_true.mp hsup
        simp only [decide_eq_true_eq] at hpeq
        obtain ⟨hpa, hpcur⟩ := hpeq
        obtain ⟨hp0, hppar, hple⟩ := haux p hp
        have hcne : e.outAmount ≠ "0" := hnz (by
          intro hc
          rw [hc] at hp
          exact List.not_mem_nil p hp)
        obtain ⟨x, y, hx, hy, hle⟩ := hple
        rw [hpa] at hx
        have hgt : ¬ gtDec tx.outAmount e.outAmount = true := by
          rw [gtDec_iff_q hx hy]
          exact not_lt.mpr hle
        rw [pickLarger_nz hcne h0, if_neg hgt]
      constructor
      · rw [h1, hpickeq]
      · unfold InvOutP
        rw [h1, h2]
        exact ⟨hpc, haux, hnz⟩
    · have hcond : tx.outAmount ≠ "0" ∧
          ¬ (e.outAmounts.any (fun a => a.1 = tx.outAmount ∧ a.2 = tx.outCurrency)) = true :=
        ⟨h0, hsup⟩
      rw [if_pos hcond, Prod.mk.injEq] at hspec
      obtain ⟨h1, h2⟩ := hspec
      have hpick : (if e.outAmount = "0" ∨ gtDec tx.outAmount e.outAmount = true
          then tx.outAmount else e.outAmount) = pickLarger e.outAmount tx.outAmount := by
        unfold pickLarger
        rw [if_neg h0]
        by_cases hc0 : e.outAmount = "0"
        · rw [if_pos hc0, if_pos (Or.inl hc0)]
        · rw [if_neg hc0]
          by_cases hgt : gtDec tx.outAmount e.outAmount = true
          · rw [if_pos (Or.inr hgt), if_pos hgt]
          · rw [if_neg (not_or.mpr ⟨hc0, hgt⟩), if_neg hgt]
      obtain ⟨vt, hvt⟩ := parsesDec_iff.mp htx
      obtain ⟨vc, hvc⟩ := parsesDec_iff.mp hpc
      constructor
      · rw [h1, hpick]
      · unfold InvOutP
        rw [h1, hpick, h2]
        refine ⟨pickLarger_parses hpc htx, ?_, ?_⟩
        · intro p hp
          rcases List.mem_append.mp hp with hold | hnew
          · obtain ⟨hp0, hppar, hple⟩ := haux p hold
            refine ⟨hp0, hppar, ?_⟩
            have hcne : e.outAmount ≠ "0" := hnz (by
              intro hc
              rw [hc] at hold
              exact List.not_mem_nil p hold)
            obtain ⟨x, y, hx, hy, hle⟩ := hple
            have hyvc : y = vc := by
              rw [hvc] at hy
              exact (Option.some.inj hy).symm
            subst hyvc
            obtain ⟨hne, w, hw, hcw, haw⟩ := pickLarger_spec_nz hcne h0 hvc hvt
            exact ⟨x, w, hx, hw, le_trans hle hcw⟩
          · have hpef : p = (tx.outAmount, tx.outCurrency) := List.mem_singleton.mp hnew
            subst hpef
            refine ⟨h0, htx, ?_⟩
            by_cases hc0 : e.outAmount = "0"
            · rw [hc0, pickLarger_zero_left]
              exact ⟨vt, vt, hvt, hvt, le_refl _⟩
            · obtain ⟨hne, w, hw, hcw, haw⟩ := pickLarger_spec_nz hc0 h0 hvc hvt
              exact ⟨vt, w, hvt, hw, haw⟩
        · intro _
          by_cases hc0 : e.outAmount = "0"
          · rw [hc0, pickLarger_zero_left]
            exact h0
          · exact (pickLarger_spec_nz hc0 h0 hvc hvt).1

theorem mergeFold_in : ∀ (xs : List TaxRow) (e : DedupEntry),
    InvInP e → (∀ r ∈ xs, parsesDec r.inAmount = true) →
    (xs.foldl mergeEntry e).inAmount =
      xs.foldl (fun c r => pickLarger c r.inAmount) e.inAmount ∧
    InvInP (xs.foldl mergeEntry e) := by
  intro xs
  induction xs with
  | nil => intro e hinv _; exact ⟨rfl, hinv⟩
  | cons r t ih =>
    intro e hinv hall
    rw [List.foldl_cons, List.foldl_cons]
    obtain ⟨h1, h2⟩ := mergeEntry_in_bridge e r hinv (hall r (List.mem_cons_self r t))
    have hrec := ih (mergeEntry e r) h2 (fun x hx => hall x (List.mem_cons_of_mem r hx))
    rw [hrec.1, h1]
    exact ⟨rfl, hrec.2⟩

theorem mergeFold_out : ∀ (xs : List TaxRow) (e : DedupEntry),
    InvOutP e → (∀ r ∈ xs, parsesDec r.outAmount = true) →
    (xs.foldl mergeEntry e).outAmount =
      xs.foldl (fun c r => pickLarger c r.outAmount) e.outAmount ∧
    InvOutP (xs.foldl mergeEntry e) := by
  intro xs
  induction xs with
  | nil => intro e hinv _; exact ⟨rfl, hinv⟩
  | cons r t ih =>
    intro e hinv hall
    rw [List.foldl_cons, List.foldl_cons]
    obtain ⟨h1, h2⟩ := mergeEntry_out_bridge e r hinv (hall r (List.mem_cons_self r t))
    have hrec := ih (mergeEntry e r) h2 (fun x hx => hall x (List.mem_cons_of_mem r hx))
    rw [hrec.1, h1]
    exact ⟨rfl, hrec.2⟩

theorem mergeFold_fee : ∀ (xs : List TaxRow) (e : DedupEntry),
    (xs.foldl mergeEntry e).fee = xs.foldl (fun c r => feeStep c r.fee) e.fee := by
  intro xs
  induction xs with
  | nil => intro e; rfl
  | cons r t ih =>
    intro e
    rw [List.foldl_cons, List.foldl_cons, ih, mergeEntry_fee]

theorem mergeFold_inCurrency : ∀ (xs : List TaxRow) (e : DedupEntry) (ci : String),
    e.inCurrency = ci → (∀ r ∈ xs, r.inCurrency = ci) →
    (xs.foldl mergeEntry e).inCurrency = ci := by
  intro xs
  induction xs with
  | nil => intro e ci he _; exact he
  | cons r t ih =>
    intro e ci he hall
    rw [List.foldl_cons]
    apply ih _ ci _ (fun x hx => hall x (List.mem_cons_of_mem r hx))
    rcases mergeEntry_inCurrency_cases e r with h | h
    · rw [h]; exact he
    · rw [h]; exact hall r (List.mem_cons_self r t)

theorem mergeFold_outCurrency : ∀ (xs : List TaxRow) (e : DedupEntry) (co : String),
    e.outCurrency = co → (∀ r ∈ xs, r.outCurrency = co) →
    (xs.foldl mergeEntry e).outCurrency = co := by
  intro xs
  induction xs with
  | nil => intro e co he _; exact he
  | cons r t ih =>
    intro e co he hall
    rw [List.foldl_cons]
    apply ih _ co _ (fun x hx => hall x (List.mem_cons_of_mem r hx))
    rcases mergeEntry_outCurrency_cases e r with h | h
    · rw [h]; exact he
    · rw [h]; exact hall r (List.mem_cons_self r t)

theorem foldl_dedupeStep_single : ∀ (ys : List TaxRow) (e : DedupEntry),
    (∀ r ∈ ys, e.key = mkKey r) → ys.foldl dedupeStep [e] = [ys.foldl mergeEntry e] := by
  intro ys
  induction ys with
  | nil => intro e _; rfl
  | cons r t ih =>
    intro e hk
    rw [List.foldl_cons, List.foldl_cons]
    have hstep : dedupeStep [e] r = [mergeEntry e r] := by
      unfold dedupeStep
      rw [if_pos]
      · simp only [List.map_cons, List.map_nil]
        rw [if_pos (hk r (List.mem_cons_self r t))]
      · simp only [List.any_cons, List.any_nil, Bool.or_false]
        exact decide_eq_true (hk r (List.mem_cons_self r t))
    rw [hstep]
    apply ih
    intro x hx
    rw [mergeEntry_key]
    exact hk x (List.mem_cons_of_mem r hx)

theorem dedupe_single_key (x : TaxRow) (xs : List TaxRow)
    (hkey : ∀ r ∈ xs, mkKey x = mkKey r) :
    deduplicateTransactions (x :: xs) = [projectEntry (xs.foldl mergeEntry (newEntry x))] := by
  unfold deduplicateTransactions
  rw [List.foldl_cons]
  have h1 : dedupeStep [] x = [newEntry x] := by
    unfold dedupeStep
    rw [if_neg]
    · rfl
    · simp
  rw [h1, foldl_dedupeStep_single xs (newEntry x) hkey, List.map_cons, List.map_nil]

theorem feeFold_closed : ∀ (fs : List String) (c : String),
    fs.foldl feeStep c = if c = "0" then firstNonZero fs else c := by
  intro fs
  induction fs with
  | nil =>
    intro c
    by_cases h : c = "0"
    · rw [if_pos h, h]; rfl
    · rw [if_neg h]; rfl
  | cons f t ih =>
    intro c
    rw [List.foldl_cons]
    by_cases h : c = "0"
    · subst h
      by_cases hf : f = "0"
      · subst hf
        have : feeStep "0" "0" = "0" := by unfold feeStep; simp
        rw [this, ih]
        simp only [if_pos rfl]
        unfold firstNonZero
        rw [List.find?_cons_of_neg _ (by simp)]
      · have : feeStep "0" f = f := by
          unfold feeStep
          rw [if_pos ⟨hf, rfl⟩]
        rw [this, ih, if_neg hf]
        unfold firstNonZero
        rw [List.find?_cons_of_pos _ (by simp [hf])]
        simp
    · have : feeStep c f = c := by
        unfold feeStep
        rw [if_neg (fun hc => h hc.2)]
      rw [this, ih, if_neg h, if_neg h]

theorem firstNonZero_perm {A B : List String} (hperm : A.Perm B)
    (huniq : ∀ a ∈ A, ∀ b ∈ A, a ≠ "0" → b ≠ "0" → a = b) :
    firstNonZero A = firstNonZero B := by
  unfold firstNonZero
  cases hA : A.find? (fun s => s != "0") with
  | none =>
    cases hB : B.find? (fun s => s != "0") with
    | none => rfl
    | some b =>
      exfalso
      have hbB := List.mem_of_find?_eq_some hB
      have hbp := List.find?_some hB
      simp only [bne_iff_ne, ne_eq] at hbp
      have hbA : b ∈ A := hperm.mem_iff.mpr hbB
      have := List.find?_eq_none.mp hA b hbA
      simp only [bne_iff_ne, ne_eq] at this
      exact this hbp
  | some a =>
    cases hB : B.find? (fun s => s != "0") with
    | none =>
      exfalso
      have haA := List.mem_of_find?_eq_some hA
      have hap := List.find?_some hA
      simp only [bne_iff_ne, ne_eq] at hap
      have haB : a ∈ B := hperm.mem_iff.mp haA
      have := List.find?_eq_none.mp hB a haB
      simp only [bne_iff_ne, ne_eq] at this
      exact this hap
    | some b =>
      have haA := List.mem_of_find?_eq_some hA
      have hap := List.find?_some hA
      have hbB := List.mem_of_find?_eq_some hB
      have hbp := List.find?_some hB
      simp only [bne_iff_ne, ne_eq] at hap hbp
      have hbA : b ∈ A := hperm.mem_iff.mpr hbB
      simp only [Option.getD_some]
      exact huniq a haA b hbA hap hbp

theorem firstNonZero_cons (f : String) (t : List String) :
    firstNonZero (f :: t) = if f = "0" then firstNonZero t else f := by
  unfold firstNonZero
  by_cases h : f = "0"
  · subst h
    rw [List.find?_cons_of_neg _ (by simp), if_pos rfl]
  · rw [List.find?_cons_of_pos _ (by simp [h]), if_neg h]
    rfl

theorem dedupe_single_key_legs (x : TaxRow) (xs : List TaxRow)
    (hkeyx : ∀ r ∈ xs, mkKey x = mkKey r)
    (hcurIn : ∀ r ∈ xs, r.inCurrency = x.inCurrency)
    (hcurOut : ∀ r ∈ xs, r.outCurrency = x.outCurrency)
    (hparseInX : parsesDec x.inAmount = true)
    (hparseIn : ∀ r ∈ xs, parsesDec r.inAmount = true)
    (hparseOutX : parsesDec x.outAmount = true)
    (hparseOut : ∀ r ∈ xs, parsesDec r.outAmount = true) :
    (deduplicateTransactions (x :: xs)).map rowLegs =
      [(((x :: xs).map (fun r => r.inAmount)).foldl pickLarger "0",
        x.inCurrency,
        ((x :: xs).map (fun r => r.outAmount)).foldl pickLarger "0",
        x.outCurrency,
        firstNonZero ((x :: xs).map (fun r => r.fee)))] := by
  rw [dedupe_single_key x xs hkeyx, List.map_cons, List.map_nil]
  have hInvIn : InvInP (newEntry x) := by
    refine ⟨hparseInX, ?_, ?_⟩
    · intro p hp
      exact absurd hp (List.not_mem_nil p)
    · intro h
      exact absurd rfl h
  have hInvOut : InvOutP (newEntry x) := by
    refine ⟨hparseOutX, ?_, ?_⟩
    · intro p hp
      exact absurd hp (List.not_mem_nil p)
    · intro h
      exact absurd rfl h
  obtain ⟨hin, _⟩ := mergeFold_in xs (newEntry x) hInvIn hparseIn
  obtain ⟨hout, _⟩ := mergeFold_out xs (newEntry x) hInvOut hparseOut
  have hfee := mergeFold_fee xs (newEntry x)
  have hic := mergeFold_inCurrency xs (newEntry x) x.inCurrency rfl hcurIn
  have hoc := mergeFold_outCurrency xs (newEntry x) x.outCurrency rfl hcurOut
  unfold rowLegs projectEntry
  dsimp only
  rw [hin, hout, hfee, hic, hoc]
  have e1 : ((x :: xs).map (fun r => r.inAmount)).foldl pickLarger "0" =
      xs.foldl (fun c r => pickLarger c r.inAmount) (newEntry x).inAmount := by
    rw [List.map_cons, List.foldl_cons, pickLarger_zero_left, List.foldl_map]
    rfl
  have e2 : ((x :: xs).map (fun r => r.outAmount)).foldl pickLarger "0" =
      xs.foldl (fun c r => pickLarger c r.outAmount) (newEntry x).outAmount := by
    rw [List.map_cons, List.foldl_cons, pickLarger_zero_left, List.foldl_map]
    rfl
  have e3 : firstNonZero ((x :: xs).map (fun r => r.fee)) =
      xs.foldl (fun c r => feeStep c r.fee) (newEntry x).fee := by
    rw [List.map_cons, firstNonZero_cons, ← feeFold_closed, List.foldl_map]
    rfl
  rw [e1, e2, e3]

/-- C5 (amended): deduplication output, projected to its amount, currency and
fee components, is invariant under permutation of the input rows, provided all
rows share the four key fields, amounts parse as decimals, distinct amount
strings denote distinct values, and all nonzero fees agree. -/
theorem C5_merge_perm_invariant (l₁ l₂ : List TaxRow) (hperm : l₁.Perm l₂) (hne : l₁ ≠ [])
    (hkey : ∀ r ∈ l₁, ∀ s ∈ l₁, r.txHash = s.txHash ∧ r.function = s.function ∧
      r.inCurrency = s.inCurrency ∧ r.outCurrency = s.outCurrency)
    (hparseIn : ∀ r ∈ l₁, parsesDec r.inAmount = true)
    (hparseOut : ∀ r ∈ l₁, parsesDec r.outAmount = true)
    (hinjIn : ∀ r ∈ l₁, ∀ s ∈ l₁, parseDecQ r.inAmount = parseDecQ s.inAmount →
      r.inAmount = s.inAmount)
    (hinjOut : ∀ r ∈ l₁, ∀ s ∈ l₁, parseDecQ r.outAmount = parseDecQ s.outAmount →
      r.outAmount = s.outAmount)
    (hfee : ∀ r ∈ l₁, ∀ s ∈ l₁, r.fee ≠ "0" → s.fee ≠ "0" → r.fee = s.fee) :
    (deduplicateTransactions l₁).map rowLegs = (deduplicateTransactions l₂).map rowLegs := by
  match l₁, hne with
  | x :: xs, _ =>
    cases l₂ with
    | nil => exact absurd hperm.eq_nil (by simp)
    | cons y ys =>
      have hxm : x ∈ x :: xs := List.mem_cons_self x xs
      have hym : y ∈ x :: xs := hperm.mem_iff.mpr (List.mem_cons_self y ys)
      have hmem2 : ∀ r ∈ y :: ys, r ∈ x :: xs := fun r hr => hperm.mem_iff.mpr hr
      have hkeyx1 : ∀ r ∈ xs, mkKey x = mkKey r := by
        intro r hr
        obtain ⟨h1, h2, h3, h4⟩ := hkey x hxm r (List.mem_cons_of_mem x hr)
        unfold mkKey
        rw [h1, h2, h3, h4]
      have hkeyx2 : ∀ r ∈ ys, mkKey y = mkKey r := by
        intro r hr
        obtain ⟨h1, h2, h3, h4⟩ := hkey y hym r (hmem2 r (List.mem_cons_of_mem y hr))
        unfold mkKey
        rw [h1, h2, h3, h4]
      have hc1 := dedupe_single_key_legs x xs hkeyx1
        (fun r hr => (hkey r (List.mem_cons_of_mem x hr) x hxm).2.2.1)
        (fun r hr => (hkey r (List.mem_cons_of_mem x hr) x hxm).2.2.2)
        (hparseIn x hxm)
        (fun r hr => hparseIn r (List.mem_cons_of_mem x hr))
        (hparseOut x hxm)
        (fun r hr => hparseOut r (List.mem_cons_of_mem x hr))
      have hc2 := dedupe_single_key_legs y ys hkeyx2
        (fun r hr => (hkey r (hmem2 r (List.mem_cons_of_mem y hr)) y hym).2.2.1)
        (fun r hr => (hkey r (hmem2 r (List.mem_cons_of_mem y hr)) y hym).2.2.2)
        (hparseIn y hym)
        (fun r hr => hparseIn r (hmem2 r (List.mem_cons_of_mem y hr)))
        (hparseOut y hym)
        (fun r hr => hparseOut r (hmem2 r (List.mem_cons_of_mem y hr)))
      rw [hc1, hc2]
      have hz : parsesDec "0" = true := by decide
      have cIn : ((x :: xs).map (fun r => r.inAmount)).foldl pickLarger "0" =
          ((y :: ys).map (fun r => r.inAmount)).foldl pickLarger "0" := by
        apply pickFold_perm (hperm.map _) "0" hz
        · intro a ha
          obtain ⟨r, hr, rfl⟩ := List.mem_map.mp ha
          exact hparseIn r hr
        · intro a ha b hb heq
          obtain ⟨r, hr, rfl⟩ := List.mem_map.mp ha
          obtain ⟨s, hs, rfl⟩ := List.mem_map.mp hb
          exact hinjIn r hr s hs heq
      have cOut : ((x :: xs).map (fun r => r.outAmount)).foldl pickLarger "0" =
          ((y :: ys).map (fun r => r.outAmount)).foldl pickLarger "0" := by
        apply pickFold_perm (hperm.map _) "0" hz
        · intro a ha
          obtain ⟨r, hr, rfl⟩ := List.mem_map.mp ha
          exact hparseOut r hr
        · intro a ha b hb heq
          obtain ⟨r, hr, rfl⟩ := List.mem_map.mp ha
          obtain ⟨s, hs, rfl⟩ := List.mem_map.mp hb
          exact hinjOut r hr s hs heq
      have cFee : firstNonZero ((x :: xs).map (fun r => r.fee)) =
          firstNonZero ((y :: ys).map (fun r => r.fee)) := by
        apply firstNonZero_perm (hperm.map _)
        intro a ha b hb ha0 hb0
        obtain ⟨r, hr, rfl⟩ := List.mem_map.mp ha
        obtain ⟨s, hs, rfl⟩ := List.mem_map.mp hb
        exact hfee r hr s hs ha0 hb0
      have cInc : x.inCurrency = y.inCurrency := (hkey x hxm y hym).2.2.1
      have cOutc : x.outCurrency = y.outCurrency := (hkey x hxm y hym).2.2.2
      rw [cIn, cOut, cFee, cInc, cOutc]

/-- C5 witness: the invariance theorem applied to a concrete swapped pair. -/
theorem C5_merge_perm_invariant_witness :
    (deduplicateTransactions [exRowC1, exRowC2]).map rowLegs =
      (deduplicateTransactions [exRowC2, exRowC1]).map rowLegs := by
  apply C5_merge_perm_invariant [exRowC1, exRowC2] [exRowC2, exRowC1]
    (List.Perm.swap exRowC2 exRowC1 []) (by simp)
  · intro r hr s hs
    simp only [List.mem_cons, List.not_mem_nil, or_false] at hr hs
    rcases hr with rfl | rfl <;> rcases hs with rfl | rfl <;>
      exact ⟨rfl, rfl, rfl, rfl⟩
  · intro r hr
    simp only [List.mem_cons, List.not_mem_nil, or_false] at hr
    rcases hr with rfl | rfl <;> decide
  · intro r hr
    simp only [List.mem_cons, List.not_mem_nil, or_false] at hr
    rcases hr with rfl | rfl <;> decide
  · intro r hr s hs h
    simp only [List.mem_cons, List.not_mem_nil, or_false] at hr hs
    rcases hr with rfl | rfl <;> rcases hs with rfl | rfl <;> rfl
  · intro r hr s hs h
    simp only [List.mem_cons, List.not_mem_nil, or_false] at hr hs
    rcases hr with rfl | rfl <;> rcases hs with rfl | rfl <;> rfl
  · intro r hr s hs h1 h2
    simp only [List.mem_cons, List.not_mem_nil, or_false] at hr hs
    rcases hr with rfl | rfl <;> rcases hs with rfl | rfl <;> rfl

theorem fee_ite_cases (tx : Tx) (c : Bool) :
    (if c then feeStr tx else "0") = "0" ∨ (if c then feeStr tx else "0") = feeStr tx := by
  cases c
  · exact Or.inl rfl
  · exact Or.inr rfl

theorem topLevelRows_fee {wallet : String} {tx : Tx} {func : String} {r : TaxRow}
    (hr : r ∈ topLevelRows wallet tx func) : r.fee = feeStr tx := by
  unfold topLevelRows at hr
  split at hr
  · rw [List.mem_singleton] at hr
    subst hr
    rfl
  · exact absurd hr (List.not_mem_nil r)

theorem egldOpRows_fee {tx : Tx} {func : String} {egldIn : List Op} {b : Bool} {r : TaxRow}
    (hr : r ∈ egldOpRows tx func egldIn b) : r.fee = "0" ∨ r.fee = feeStr tx := by
  obtain ⟨p, hp, rfl⟩ := List.mem_map.mp hr
  exact fee_ite_cases tx _

theorem claimRewardsRows_fee {wallet : String} {decimalsOf : String → Nat} {tx : Tx}
    {func : String} {tokIn : List Op} {events : List Event} {results : List SCRes}
    {b : Bool} {r : TaxRow}
    (hr : r ∈ claimRewardsRows wallet decimalsOf tx func tokIn events results b) :
    r.fee = "0" ∨ r.fee = feeStr tx := by
  unfold claimRewardsRows at hr
  split at hr
  · rw [List.mem_singleton] at hr
    subst hr
    exact Or.inr rfl
  split at hr
  · rw [List.mem_singleton] at hr
    subst hr
    exact Or.inr rfl
  split at hr
  · rw [List.mem_singleton] at hr
    subst hr
    exact Or.inr rfl
  split at hr
  · rw [List.mem_singleton] at hr
    subst hr
    exact fee_ite_cases tx _
  · rw [List.mem_singleton] at hr
    subst hr
    exact Or.inr rfl

theorem genericTokenInRows_fee {decimalsOf : String → Nat} {tx : Tx} {func : String}
    {tokIn : List Op} {b : Bool} {r : TaxRow}
    (hr : r ∈ genericTokenInRows decimalsOf tx func tokIn b) :
    r.fee = "0" ∨ r.fee = feeStr tx := by
  obtain ⟨p, hp, heq⟩ := List.mem_filterMap.mp hr
  dsimp only at heq
  split at heq
  · exact absurd heq (by simp)
  split at heq
  · exact absurd heq (by simp)
  · obtain rfl := Option.some.inj heq
    exact fee_ite_cases tx _

theorem genericTokenOutRows_fee {decimalsOf : String → Nat} {tx : Tx} {func : String}
    {tokOut : List Op} {b : Bool} {r : TaxRow}
    (hr : r ∈ genericTokenOutRows decimalsOf tx func tokOut b) :
    r.fee = "0" ∨ r.fee = feeStr tx := by
  obtain ⟨p, hp, heq⟩ := List.mem_filterMap.mp hr
  dsimp only at heq
  split at heq
  · exact absurd heq (by simp)
  split at heq
  · exact absurd heq (by simp)
  · obtain rfl := Option.some.inj heq
    exact fee_ite_cases tx _

theorem genericEventRows_fee {decimalsOf : String → Nat} {tx : Tx} {func : String}
    {evs : List Event} {b : Bool} {r : TaxRow}
    (hr : r ∈ genericEventRows decimalsOf tx func evs b) :
    r.fee = "0" ∨ r.fee = feeStr tx := by
  obtain ⟨p, hp, heq⟩ := List.mem_filterMap.mp hr
  dsimp only at heq
  split at heq
  · exact absurd heq (by simp)
  split at heq
  · exact absurd heq (by simp)
  · obtain rfl := Option.some.inj heq
    exact fee_ite_cases tx _

theorem genericResultRows_fee {decimalsOf : String → Nat} {tx : Tx} {func : String}
    {res : List SCRes} {b : Bool} {r : TaxRow}
    (hr : r ∈ genericResultRows decimalsOf tx func res b) :
    r.fee = "0" ∨ r.fee = feeStr tx := by
  obtain ⟨p, hp, heq⟩ := List.mem_filterMap.mp hr
  dsimp only at heq
  split at heq
  · exact absurd heq (by simp)
  split at heq
  · exact absurd heq (by simp)
  split at heq
  · exact absurd heq (by simp)
  · obtain rfl := Option.some.inj heq
    exact fee_ite_cases tx _

theorem genericRows_fee {wallet : String} {decimalsOf : String → Nat} {tx : Tx}
    {func : String} {egldIn tokIn tokOut : List Op} {events : List Event}
    {results : List SCRes} {b : Bool} {r : TaxRow}
    (hr : r ∈ genericRows wallet decimalsOf tx func egldIn tokIn tokOut events results b) :
    r.fee = "0" ∨ r.fee = feeStr tx := by
  unfold genericRows at hr
  dsimp only at hr
  rcases List.mem_append.mp hr with hr | hr
  · rcases List.mem_append.mp hr with hr | hr
    · rcases List.mem_append.mp hr with hr | hr
      · rcases List.mem_append.mp hr with hr | hr
        · exact genericTokenInRows_fee hr
        · exact genericTokenOutRows_fee hr
      · exact genericEventRows_fee hr
    · exact genericResultRows_fee hr
  · split at hr
    · split at hr
      · rw [List.mem_singleton] at hr
        subst hr
        exact Or.inr rfl
      · exact absurd hr (List.not_mem_nil r)
    · exact absurd hr (List.not_mem_nil r)

theorem processTransaction_fee {wallet : String} {decimalsOf : String → Nat}
    {tx : Tx} {detail : Detail} {r : TaxRow}
    (hr : r ∈ processTransaction wallet decimalsOf tx detail) :
    r.fee = "0" ∨ r.fee = feeStr tx := by
  unfold processTransaction at hr
  dsimp only at hr
  split at hr
  · exact Or.inr (topLevelRows_fee hr)
  split at hr
  · rcases List.mem_append.mp hr with hr | hr
    · rcases List.mem_append.mp hr with hr | hr
      · exact Or.inr (topLevelRows_fee hr)
      · exact egldOpRows_fee hr
    · rw [List.mem_singleton] at hr
      subst hr
      exact Or.inr rfl
  split at hr
  · rcases List.mem_append.mp hr with hr | hr
    · rcases List.mem_append.mp hr with hr | hr
      · exact Or.inr (topLevelRows_fee hr)
      · exact egldOpRows_fee hr
    · exact claimRewardsRows_fee hr
  split at hr
  · rcases List.mem_append.mp hr with hr | hr
    · rcases List.mem_append.mp hr with hr | hr
      · exact Or.inr (topLevelRows_fee hr)
      · exact egldOpRows_fee hr
    · rw [List.mem_singleton] at hr
      subst hr
      exact Or.inr rfl
  split at hr
  · split at hr
    · rcases List.mem_append.mp hr with hr | hr
      · rcases List.mem_append.mp hr with hr | hr
        · exact Or.inr (topLevelRows_fee hr)
        · exact egldOpRows_fee hr
      · rw [List.mem_singleton] at hr
        subst hr
        exact Or.inr rfl
    · rcases List.mem_append.mp hr with hr | hr
      · rcases List.mem_append.mp hr with hr | hr
        · exact Or.inr (topLevelRows_fee hr)
        · exact egldOpRows_fee hr
      · exact genericRows_fee hr
  · rcases List.mem_append.mp hr with hr | hr
    · rcases List.mem_append.mp hr with hr | hr
      · exact Or.inr (topLevelRows_fee hr)
      · exact egldOpRows_fee hr
    · exact genericRows_fee hr

theorem digitVal_digitChar {k : Nat} (hk : k ≤ 9) : digitVal? (digitChar k) = some k := by
  interval_cases k <;> decide

theorem digitsValAux_append : ∀ (l₁ l₂ : List Char) (acc v : Nat),
    digitsValAux l₁ acc = some v → digitsValAux (l₁ ++ l₂) acc = digitsValAux l₂ v := by
  intro l₁
  induction l₁ with
  | nil =>
    intro l₂ acc v h
    rw [digitsValAux] at h
    obtain rfl := Option.some.inj h
    rfl
  | cons c t ih =>
    intro l₂ acc v h
    rw [List.cons_append, digitsValAux]
    rw [digitsValAux] at h
    cases hdv : digitVal? c with
    | none => rw [hdv] at h; exact absurd h (by simp)
    | some d => rw [hdv] at h; exact ih l₂ _ v h

theorem digitsValAux_replicate : ∀ (z acc : Nat),
    digitsValAux (List.replicate z '0') acc = some (acc * 10 ^ z) := by
  intro z
  induction z with
  | zero => intro acc; simp [digitsValAux]
  | succ n ih =>
    intro acc
    rw [List.replicate_succ]
    have hd : digitVal? '0' = some 0 := by decide
    simp only [digitsValAux, hd]
    rw [ih]
    congr 1
    ring

theorem natDigitsRevAux_revVal : ∀ (fuel n acc : Nat), n < fuel →
    digitsValAux ((natDigitsRevAux fuel n).reverse) acc =
      some (acc * 10 ^ (natDigitsRevAux fuel n).length + n) := by
  intro fuel
  induction fuel with
  | zero => intro n acc h; exact absurd h (Nat.not_lt_zero n)
  | succ f ih =>
    intro n acc h
    rw [natDigitsRevAux]
    by_cases h10 : n < 10
    · rw [if_pos h10]
      have hd : digitVal? (digitChar n) = some n := digitVal_digitChar (by omega)
      simp [digitsValAux, hd]
    · rw [if_neg h10]
      have hrec : n / 10 < f := by
        have h1 : n / 10 ≤ f / 10 := Nat.div_le_div_right (by omega)
        have h2 : f / 10 < f := Nat.div_lt_self (by omega) (by omega)
        omega
      rw [List.reverse_cons]
      have hval := ih (n / 10) acc hrec
      rw [digitsValAux_append _ _ acc _ hval]
      have hd : digitVal? (digitChar (n % 10)) = some (n % 10) := by
        have h9 : n % 10 ≤ 9 := by omega
        exact digitVal_digitChar h9
      simp only [digitsValAux, hd]
      congr 1
      rw [List.length_cons]
      have hring : (acc * 10 ^ (natDigitsRevAux f (n / 10)).length + n / 10) * 10 + n % 10 =
          acc * (10 ^ (natDigitsRevAux f (n / 10)).length * 10) + (n / 10 * 10 + n % 10) := by
        ring
      have hdm : n / 10 * 10 + n % 10 = n := by omega
      rw [hring, hdm, pow_succ]

theorem mem_natDigitsRevAux : ∀ (fuel n : Nat) (c : Char),
    c ∈ natDigitsRevAux fuel n → ∃ k, k ≤ 9 ∧ c = digitChar k := by
  intro fuel
  induction fuel with
  | zero => intro n c h; exact absurd h (List.not_mem_nil c)
  | succ f ih =>
    intro n c h
    rw [natDigitsRevAux] at h
    by_cases h10 : n < 10
    · rw [if_pos h10] at h
      rw [List.mem_singleton] at h
      exact ⟨n, by omega, h⟩
    · rw [if_neg h10] at h
      rcases List.mem_cons.mp h with rfl | h
      · exact ⟨n % 10, by omega, rfl⟩
      · exact ih (n / 10) c h

theorem digitChar_ne_dot {k : Nat} (hk : k ≤ 9) : digitChar k ≠ '.' := by
  interval_cases k <;> decide

theorem digitChar_ne_minus {k : Nat} (hk : k ≤ 9) : digitChar k ≠ '-' := by
  interval_cases k <;> decide

theorem length_natDigitsRevAux : ∀ (fuel n k : Nat), n < fuel → n < 10 ^ k → 1 ≤ k →
    (natDigitsRevAux fuel n).length ≤ k := by
  intro fuel
  induction fuel with
  | zero => intro n k h; exact absurd h (Nat.not_lt_zero n)
  | succ f ih =>
    intro n k h hk h1
    rw [natDigitsRevAux]
    by_cases h10 : n < 10
    · rw [if_pos h10]
      simpa using h1
    · rw [if_neg h10]
      have hrec : n / 10 < f := by
        have hx : n / 10 ≤ f / 10 := Nat.div_le_div_right (by omega)
        have hy : f / 10 < f := Nat.div_lt_self (by omega) (by omega)
        omega
      have hk2 : 2 ≤ k := by
        by_contra hc
        have hk1 : k = 1 := by omega
        subst hk1
        simp at hk
        omega
      have hdiv : n / 10 < 10 ^ (k - 1) := by
        have hpow : 10 ^ (k - 1) * 10 = 10 ^ k := by
          rw [← pow_succ]
          congr 1
          omega
        have hnlt : n < 10 ^ (k - 1) * 10 := by omega
        omega
      have hlen := ih (n / 10) (k - 1) hrec hdiv (by omega)
      rw [List.length_cons]
      omega

theorem splitDotAux_no_dot : ∀ (l acc : List Char), '.' ∉ l →
    splitDotAux l acc = some (acc.reverse ++ l, []) := by
  intro l
  induction l with
  | nil =>
    intro acc h
    simp [splitDotAux]
  | cons c t ih =>
    intro acc h
    rw [splitDotAux]
    have hc : ¬ c = '.' := fun he => h (he ▸ List.mem_cons_self c t)
    rw [if_neg hc, ih (c :: acc) (fun ht => h (List.mem_cons_of_mem c ht))]
    simp

theorem splitDotAux_dot : ∀ (l₁ l₂ acc : List Char), '.' ∉ l₁ → '.' ∉ l₂ →
    splitDotAux (l₁ ++ '.' :: l₂) acc = some (acc.reverse ++ l₁, l₂) := by
  intro l₁
  induction l₁ with
  | nil =>
    intro l₂ acc h1 h2
    rw [List.nil_append, splitDotAux, if_pos rfl]
    have hcontains : l₂.contains '.' = false := by
      simpa using h2
    rw [hcontains]
    simp
  | cons c t ih =>
    intro l₂ acc h1 h2
    rw [List.cons_append, splitDotAux]
    have hc : ¬ c = '.' := fun he => h1 (he ▸ List.mem_cons_self c t)
    rw [if_neg hc, ih l₂ (c :: acc) (fun ht => h1 (List.mem_cons_of_mem c ht)) h2]
    simp

theorem parseDec_digits (l : List Char) (m : Nat) (hne : l ≠ [])
    (hmem : ∀ c ∈ l, ∃ k, k ≤ 9 ∧ c = digitChar k)
    (hval : digitsVal? l = some m) :
    parseDec ⟨l⟩ = some ((m : Int), 0) := by
  match l, hne with
  | c :: t, _ =>
    have hcm : ¬ c = '-' := by
      obtain ⟨k, hk, he⟩ := hmem c (List.mem_cons_self c t)
      rw [he]
      exact digitChar_ne_minus hk
    have hnodot : '.' ∉ c :: t := by
      intro hc
      obtain ⟨k, hk, he⟩ := hmem _ hc
      exact digitChar_ne_dot hk he.symm
    have hsplit := splitDotAux_no_dot (c :: t) [] hnodot
    have hval0 : digitsVal? ([] : List Char) = some 0 := rfl
    unfold parseDec
    dsimp only
    rw [if_neg hcm, hsplit]
    dsimp only
    rw [List.reverse_nil, List.nil_append]
    have hie : ((c :: t).isEmpty && (List.isEmpty ([] : List Char))) = false := rfl
    rw [hie]
    rw [if_neg (by simp)]
    rw [hval, hval0]
    dsimp only
    norm_num

theorem natDigitsRev_ne_nil (m : Nat) : natDigitsRev m ≠ [] := by
  unfold natDigitsRev
  rw [natDigitsRevAux]
  by_cases h : m < 10
  · rw [if_pos h]
    simp
  · rw [if_neg h]
    simp

theorem parseDec_natToDecStr (m : Nat) : parseDec (natToDecStr m) = some ((m : Int), 0) := by
  unfold natToDecStr
  apply parseDec_digits
  · simp [natDigitsRev_ne_nil m]
  · intro c hc
    exact mem_natDigitsRevAux (m + 1) m c (List.mem_reverse.mp hc)
  · have h := natDigitsRevAux_revVal (m + 1) m 0 (Nat.lt_succ_self m)
    simpa [digitsVal?, natDigitsRev] using h

theorem digitsValAux_isSome : ∀ (l : List Char) (acc : Nat),
    (∀ c ∈ l, (digitVal? c).isSome) → ∃ v, digitsValAux l acc = some v := by
  intro l
  induction l with
  | nil =>
    intro acc h
    exact ⟨acc, rfl⟩
  | cons c t ih =>
    intro acc h
    rw [digitsValAux]
    have hc := h c (List.mem_cons_self c t)
    cases hdv : digitVal? c with
    | none =>
      rw [hdv] at hc
      exact absurd hc (by simp)
    | some d =>
      exact ih _ (fun x hx => h x (List.mem_cons_of_mem c hx))

theorem trimRightZeros_decomp (l : List Char) :
    ∃ z, l = trimRightZeros l ++ List.replicate z '0' := by
  refine ⟨(l.reverse.takeWhile (fun c => c = '0')).length, ?_⟩
  have hsplit : l.reverse.takeWhile (fun c => c = '0') ++
      l.reverse.dropWhile (fun c => c = '0') = l.reverse :=
    List.takeWhile_append_dropWhile _ _
  have hl : l = (l.reverse.dropWhile (fun c => c = '0')).reverse ++
      (l.reverse.takeWhile (fun c => c = '0')).reverse := by
    conv_lhs => rw [← l.reverse_reverse, ← hsplit]
    rw [List.reverse_append]
  have hrep : (l.reverse.takeWhile (fun c => c = '0')).reverse =
      List.replicate (l.reverse.takeWhile (fun c => c = '0')).length '0' := by
    apply List.eq_replicate_iff.mpr
    constructor
    · simp
    · intro b hb
      have hmem := List.mem_takeWhile_imp (List.mem_reverse.mp hb)
      exact of_decide_eq_true hmem
  conv_lhs => rw [hl]
  rw [hrep]
  rfl

theorem parseDec_digits_frac (l₁ l₂ : List Char) (mi mf : Nat) (hne : l₁ ≠ [])
    (hmem1 : ∀ c ∈ l₁, ∃ k, k ≤ 9 ∧ c = digitChar k)
    (hmem2 : ∀ c ∈ l₂, ∃ k, k ≤ 9 ∧ c = digitChar k)
    (hv1 : digitsVal? l₁ = some mi) (hv2 : digitsVal? l₂ = some mf) :
    parseDec ⟨l₁ ++ '.' :: l₂⟩ =
      some ((mi : Int) * 10 ^ l₂.length + (mf : Int), l₂.length) := by
  match l₁, hne, hmem1, hv1 with
  | c :: t, _, hmem1, hv1 =>
    have hcm : ¬ c = '-' := by
      obtain ⟨k, hk, he⟩ := hmem1 c (List.mem_cons_self c t)
      rw [he]
      exact digitChar_ne_minus hk
    have hnodot1 : '.' ∉ c :: t := by
      intro hc
      obtain ⟨k, hk, he⟩ := hmem1 _ hc
      exact digitChar_ne_dot hk he.symm
    have hnodot2 : '.' ∉ l₂ := by
      intro hc
      obtain ⟨k, hk, he⟩ := hmem2 _ hc
      exact digitChar_ne_dot hk he.symm
    have hsplit := splitDotAux_dot (c :: t) l₂ [] hnodot1 hnodot2
    simp only [List.reverse_nil, List.nil_append, List.cons_append] at hsplit
    unfold parseDec
    dsimp only
    rw [List.cons_append]
    dsimp only
    rw [if_neg hcm]
    dsimp only
    rw [hsplit]
    dsimp only
    have hie : ((c :: t).isEmpty && l₂.isEmpty) = false := rfl
    rw [hie]
    rw [if_neg (by simp)]
    rw [hv1, hv2]
    dsimp only
    norm_num

theorem parseDecQ_natToDecStr (m : Nat) : parseDecQ (natToDecStr m) = some ((m : ℚ)) := by
  unfold parseDecQ
  rw [parseDec_natToDecStr]
  simp [qOfScaled]

theorem qOfScaled_combine (n d e ip r vt tl z₂ : Nat)
    (hde : d + e = 20) (hlz : tl + z₂ = 20)
    (hipr : 10 ^ d * ip + r = n)
    (hvt : vt * 10 ^ z₂ = r * 10 ^ e) :
    qOfScaled ((ip : Int) * 10 ^ tl + (vt : Int), tl) = (n : ℚ) / 10 ^ d := by
  unfold qOfScaled
  dsimp only
  have hcast : (((ip : Int) * 10 ^ tl + (vt : Int) : Int) : ℚ) =
      (ip : ℚ) * 10 ^ tl + (vt : ℚ) := by
    push_cast
    ring
  rw [hcast]
  rw [div_eq_div_iff (by positivity) (by positivity)]
  have hq : (vt : ℚ) * 10 ^ z₂ = (r : ℚ) * 10 ^ e := by
    have h := congrArg (fun x : ℕ => (x : ℚ)) hvt
    push_cast at h
    exact h
  have hnq : (n : ℚ) = 10 ^ d * (ip : ℚ) + (r : ℚ) := by
    have h := congrArg (fun x : ℕ => (x : ℚ)) hipr
    push_cast at h
    linarith
  have hkey : (vt : ℚ) * 10 ^ d = (r : ℚ) * 10 ^ tl := by
    have h2 : (vt : ℚ) * 10 ^ d * 10 ^ z₂ = (r : ℚ) * 10 ^ tl * 10 ^ z₂ := by
      calc (vt : ℚ) * 10 ^ d * 10 ^ z₂ = ((vt : ℚ) * 10 ^ z₂) * 10 ^ d := by ring
        _ = ((r : ℚ) * 10 ^ e) * 10 ^ d := by rw [hq]
        _ = (r : ℚ) * 10 ^ (e + d) := by rw [pow_add]; ring
        _ = (r : ℚ) * 10 ^ (tl + z₂) := by rw [show e + d = tl + z₂ by omega]
        _ = (r : ℚ) * 10 ^ tl * 10 ^ z₂ := by rw [pow_add]; ring
    exact mul_right_cancel₀ (by positivity) h2
  calc ((ip : ℚ) * 10 ^ tl + (vt : ℚ)) * 10 ^ d
      = (ip : ℚ) * 10 ^ d * 10 ^ tl + (vt : ℚ) * 10 ^ d := by ring
    _ = (ip : ℚ) * 10 ^ d * 10 ^ tl + (r : ℚ) * 10 ^ tl := by rw [hkey]
    _ = (10 ^ d * (ip : ℚ) + (r : ℚ)) * 10 ^ tl := by ring
    _ = (n : ℚ) * 10 ^ tl := by rw [← hnq]

theorem formatAmount_exact (n d : Nat) (hd : d ≤ 20) :
    parseDecQ (formatAmount n d) = some ((n : ℚ) / 10 ^ d) := by
  have hde : d + (20 - d) = 20 := by omega
  set e := 20 - d with he
  have h20 : (10 : ℕ) ^ 20 = 10 ^ d * 10 ^ e := by
    rw [← pow_add, hde]
  have hpe : 0 < (10 : ℕ) ^ e := pow_pos (by norm_num) e
  have hpd : 0 < (10 : ℕ) ^ d := pow_pos (by norm_num) d
  have hscaled : (2 * n * 10 ^ 20 + 10 ^ d) / (2 * 10 ^ d) = n * 10 ^ e := by
    rw [h20]
    have hnum : 2 * n * (10 ^ d * 10 ^ e) + 10 ^ d = 10 ^ d * (2 * (n * 10 ^ e) + 1) := by
      ring
    have hden : 2 * 10 ^ d = 10 ^ d * 2 := by ring
    rw [hnum, hden, Nat.mul_div_mul_left _ _ hpd]
    omega
  have hip : n * 10 ^ e / 10 ^ 20 = n / 10 ^ d := by
    rw [h20]
    exact Nat.mul_div_mul_right _ _ hpe
  have hfr : n * 10 ^ e % 10 ^ 20 = n % 10 ^ d * 10 ^ e := by
    rw [h20]
    exact Nat.mul_mod_mul_right _ _ _
  unfold formatAmount
  dsimp only
  rw [hscaled, hip, hfr]
  by_cases h0 : n % 10 ^ d * 10 ^ e = 0
  · rw [if_pos h0]
    have hmod : n % 10 ^ d = 0 := by
      rcases Nat.mul_eq_zero.mp h0 with h | h
      · exact h
      · omega
    have hdvd : 10 ^ d ∣ n := Nat.dvd_of_mod_eq_zero hmod
    rw [parseDecQ_natToDecStr]
    congr 1
    rw [Nat.cast_div hdvd (by positivity)]
    push_cast
    ring
  · rw [if_neg h0]
    have hfr20 : n % 10 ^ d * 10 ^ e < 10 ^ 20 := by
      have hr : n % 10 ^ d < 10 ^ d := Nat.mod_lt n hpd
      calc n % 10 ^ d * 10 ^ e < 10 ^ d * 10 ^ e :=
            (Nat.mul_lt_mul_right hpe).mpr hr
        _ = 10 ^ 20 := h20.symm
    have hFlen : (natDigitsRev (n % 10 ^ d * 10 ^ e)).reverse.length ≤ 20 := by
      rw [List.length_reverse]
      exact length_natDigitsRevAux _ _ 20 (Nat.lt_succ_self _) hfr20 (by norm_num)
    have hFmem : ∀ c ∈ (natDigitsRev (n % 10 ^ d * 10 ^ e)).reverse,
        ∃ k, k ≤ 9 ∧ c = digitChar k := by
      intro c hc
      exact mem_natDigitsRevAux _ _ c (List.mem_reverse.mp hc)
    have hFval : digitsValAux (natDigitsRev (n % 10 ^ d * 10 ^ e)).reverse 0 =
        some (n % 10 ^ d * 10 ^ e) := by
      have h := natDigitsRevAux_revVal (n % 10 ^ d * 10 ^ e + 1) (n % 10 ^ d * 10 ^ e) 0
        (Nat.lt_succ_self _)
      simpa [natDigitsRev] using h
    have hPmem : ∀ c ∈ padLeftZeros (natDigitsRev (n % 10 ^ d * 10 ^ e)).reverse 20,
        ∃ k, k ≤ 9 ∧ c = digitChar k := by
      intro c hc
      unfold padLeftZeros at hc
      rcases List.mem_append.mp hc with hc | hc
      · exact ⟨0, by omega, List.eq_of_mem_replicate hc⟩
      · exact hFmem c hc
    have hPval : digitsValAux (padLeftZeros (natDigitsRev (n % 10 ^ d * 10 ^ e)).reverse 20) 0 =
        some (n % 10 ^ d * 10 ^ e) := by
      unfold padLeftZeros
      have h1 : digitsValAux (List.replicate
          (20 - (natDigitsRev (n % 10 ^ d * 10 ^ e)).reverse.length) '0') 0 = some 0 := by
        rw [digitsValAux_replicate]
        norm_num
      rw [digitsValAux_append _ _ 0 0 h1]
      exact hFval
    have hPlen : (padLeftZeros (natDigitsRev (n % 10 ^ d * 10 ^ e)).reverse 20).length = 20 := by
      unfold padLeftZeros
      rw [List.length_append, List.length_replicate]
      omega
    obtain ⟨z₂, hdecomp⟩ :=
      trimRightZeros_decomp (padLeftZeros (natDigitsRev (n % 10 ^ d * 10 ^ e)).reverse 20)
    have hTmem : ∀ c ∈ trimRightZeros (padLeftZeros (natDigitsRev (n % 10 ^ d * 10 ^ e)).reverse 20),
        ∃ k, k ≤ 9 ∧ c = digitChar k := by
      intro c hc
      apply hPmem c
      rw [hdecomp]
      exact List.mem_append_left _ hc
    obtain ⟨vt, hvt⟩ := digitsValAux_isSome
      (trimRightZeros (padLeftZeros (natDigitsRev (n % 10 ^ d * 10 ^ e)).reverse 20)) 0
      (by
        intro c hc
        obtain ⟨k, hk, rfl⟩ := hTmem c hc
        rw [digitVal_digitChar hk]
        rfl)
    have hfrval : vt * 10 ^ z₂ = n % 10 ^ d * 10 ^ e := by
      have h2 := hPval
      rw [hdecomp] at h2
      rw [digitsValAux_append _ _ 0 vt hvt, digitsValAux_replicate] at h2
      exact Option.some.inj h2
    have hlen2 :
        (trimRightZeros (padLeftZeros (natDigitsRev (n % 10 ^ d * 10 ^ e)).reverse 20)).length +
          z₂ = 20 := by
      have h2 := hPlen
      rw [hdecomp, List.length_append, List.length_replicate] at h2
      exact h2
    have hipne : (natDigitsRev (n / 10 ^ d)).reverse ≠ [] := by
      simp [natDigitsRev_ne_nil]
    have hipmem : ∀ c ∈ (natDigitsRev (n / 10 ^ d)).reverse, ∃ k, k ≤ 9 ∧ c = digitChar k := by
      intro c hc
      exact mem_natDigitsRevAux _ _ c (List.mem_reverse.mp hc)
    have hipval : digitsVal? (natDigitsRev (n / 10 ^ d)).reverse = some (n / 10 ^ d) := by
      have h := natDigitsRevAux_revVal (n / 10 ^ d + 1) (n / 10 ^ d) 0 (Nat.lt_succ_self _)
      simpa [digitsVal?, natDigitsRev] using h
    have hds : (natToDecStr (n / 10 ^ d)).data = (natDigitsRev (n / 10 ^ d)).reverse := rfl
    rw [hds]
    have hparse := parseDec_digits_frac (natDigitsRev (n / 10 ^ d)).reverse
      (trimRightZeros (padLeftZeros (natDigitsRev (n % 10 ^ d * 10 ^ e)).reverse 20))
      (n / 10 ^ d) vt hipne hipmem hTmem hipval hvt
    unfold parseDecQ
    rw [hparse]
    rw [Option.map_some']
    congr 1
    exact qOfScaled_combine n d e (n / 10 ^ d) (n % 10 ^ d) vt _ z₂ hde hlen2
      (Nat.div_add_mod n (10 ^ d)) hfrval

/-- C9 counterexample: with a 21-decimal token, an inbound operation of one
smallest unit is emitted as the row amount 0, although the exact quotient
one over ten to the 21 is nonzero; BigNumber division stops at its default
20 decimal places. -/
theorem C9_counterexample :
    ((processTransaction exWallet exDecimals21 exTx9 exDetail9).map (fun r => r.inAmount) =
      ["0"]) ∧ (1 : ℚ) / 10 ^ 21 ≠ 0 := by
  constructor
  · decide
  · norm_num

/-- C9 (amended): every row fee is the truncating integer division of the raw
fee by ten to the 18, or the literal zero, so a transaction fee below one
whole EGLD is always reported as 0; and the emitted amounts equal the exact
decimal quotient of the raw amount by ten to the token decimals whenever the
token has at most 20 decimals (the BigNumber default precision). -/
theorem C9_fee_truncation_and_amount_rounding (wallet : String)
    (decimalsOf : String → Nat) (tx : Tx) (detail : Detail)
    (hfee : tx.fee < 10 ^ 18) :
    (∀ r ∈ processTransaction wallet decimalsOf tx detail, r.fee = "0") ∧
    (∀ n d : Nat, d ≤ 20 → parseDecQ (formatAmount n d) = some ((n : ℚ) / 10 ^ d)) := by
  constructor
  · intro r hr
    rcases processTransaction_fee hr with h | h
    · exact h
    · rw [h]
      unfold feeStr
      rw [Nat.div_eq_of_lt hfee]
      rfl
  · intro n d hd
    exact formatAmount_exact n d hd

/-- C9 witness: the amended statement at a concrete transaction with a fee
below one EGLD, and the exact rendering of 15 over ten. -/
theorem C9_fee_truncation_and_amount_rounding_witness :
    exTx9.fee < 10 ^ 18 ∧
    (processTransaction exWallet exDecimals exTx9 exDetail9).all
      (fun r => r.fee == "0") = true ∧
    parseDecQ (formatAmount 15 1) = some ((15 : ℚ) / 10 ^ 1) := by
  have h := C9_fee_truncation_and_amount_rounding exWallet exDecimals exTx9 exDetail9 (by decide)
  refine ⟨by decide, ?_, h.2 15 1 (by decide)⟩
  apply List.all_eq_true.mpr
  intro r hr
  rw [h.1 r hr]
  rfl

end MxProxy
